import Mathlib

/-
Shallow embedding of the Flow_project max-flow core
(src/graph.py, src/algorithms.py, src/flow_network.py, src/exceptions.py).

Modelling conventions:
* Python dicts preserve insertion order, so `nodes`, `edges` and
  `adjacency_list` are insertion-ordered association lists.
* Python floats are modelled as rationals; the capacities exercised by the
  claims are finite-precision values, and no claim depends on rounding.
* Python exceptions become an explicit error type.  Note that graph.py only
  imports InvalidInputError and algorithms.py only imports
  NetworkNotValidError, so the raise sites that mention NodeNotFoundError /
  EdgeNotFoundError actually raise a NameError for the unbound class name;
  this is modelled by the `nameError` variant carrying the unbound name.
* `while` loops become structural or fuel-based recursion.  The
  Ford-Fulkerson augmentation loop may genuinely diverge, so it takes a fuel
  argument and reports exhaustion as `PyRes.div` (the computation is still
  running).  The BFS/DFS worklist loops always terminate and are defined by
  well-founded recursion on the set of not-yet-visited reachable names.
-/

namespace FlowProj

/-- Association list with string keys, modelling a Python dict
(insertion-ordered). -/
abbrev Dict (α : Type) := List (String × α)

/-- Lookup in a dict: first binding of the key, as Python dict lookup. -/
def dictFind {α : Type} (d : Dict α) (k : String) : Option α :=
  (d.find? (fun p => p.1 = k)).map (·.2)

/-- Membership test, Python `k in d`. -/
def dictContains {α : Type} (d : Dict α) (k : String) : Bool :=
  d.any (fun p => p.1 = k)

/-- In-place update of the value stored at key `k` (Python mutates the stored
object; entries with other keys are untouched). -/
def dictModify {α : Type} (d : Dict α) (k : String) (f : α → α) : Dict α :=
  d.map (fun p => if p.1 = k then (p.1, f p.2) else p)

/-- graph.py `Node` dataclass. -/
structure Node where
  id : String
  name : String
  is_source : Bool
  is_sink : Bool
deriving Repr, DecidableEq

/-- graph.py `Edge` dataclass. -/
structure Edge where
  id : String
  start_node_id : String
  end_node_id : String
  capacity : ℚ
  flow : ℚ
deriving Repr, DecidableEq

/-- graph.py `Edge.residual_capacity` property. -/
def Edge.residual_capacity (e : Edge) : ℚ := e.capacity - e.flow

/-- Errors flowing out of the embedded Python code.  `nameError n` models the
NameError raised when an exception class `n` is referenced without being
imported (see the module-level comment). -/
inductive PyError where
  | invalidInput (msg : String)
  | networkNotValid (msg : String)
  | nameError (unbound : String)
  | keyError (key : String)
deriving Repr, DecidableEq

/-- Outcome of a possibly diverging Python computation: a value, a raised
exception, or a computation that is still running (`div`, reported when the
fuel of a loop that Python runs unboundedly is exhausted). -/
inductive PyRes (α : Type) where
  | ok (a : α)
  | err (e : PyError)
  | div
deriving Repr, DecidableEq

/-- Python exception propagation: if `x` raised, re-raise, otherwise continue
with its value. -/
def exThen {α β : Type} (x : Except PyError α) (f : α → Except PyError β) :
    Except PyError β :=
  match x with
  | .error e => .error e
  | .ok a => f a

/-- Exception propagation from an exception-only step into a possibly
diverging computation. -/
def pyThen {α β : Type} (x : Except PyError α) (f : α → PyRes β) : PyRes β :=
  match x with
  | .error e => .err e
  | .ok a => f a

/-- Sequencing of possibly diverging computations. -/
def resThen {α β : Type} (x : PyRes α) (f : α → PyRes β) : PyRes β :=
  match x with
  | .div => .div
  | .err e => .err e
  | .ok a => f a

/-- Python `dict[key]`-style lookup that raises when the key is absent. -/
def orRaise {α : Type} (x : Option α) (e : PyError) : Except PyError α :=
  match x with
  | none => .error e
  | some a => .ok a

/-- graph.py `Graph`: node dict, edge dict, adjacency dict (node id to the
ordered list of outgoing edge ids). -/
structure Graph where
  nodes : Dict Node
  edges : Dict Edge
  adjacency_list : Dict (List String)
deriving Repr, DecidableEq

/-- `Graph()` constructor. -/
def Graph.empty : Graph := ⟨[], [], []⟩

/-- `Node.__post_init__` together with dataclass construction: empty id is
InvalidInput, empty name defaults to the id. -/
def mkNode (id name : String) (is_source is_sink : Bool) : Except PyError Node :=
  if id = "" then .error (.invalidInput "node id empty")
  else .ok { id := id, name := if name = "" then id else name,
             is_source := is_source, is_sink := is_sink }

/-- `Edge.__post_init__` together with dataclass construction. -/
def mkEdge (id start_node_id end_node_id : String) (capacity flow : ℚ) :
    Except PyError Edge :=
  if id = "" then .error (.invalidInput "edge id empty")
  else if capacity < 0 then .error (.invalidInput "negative capacity")
  else if flow < 0 then .error (.invalidInput "negative flow")
  else if flow > capacity then .error (.invalidInput "flow exceeds capacity")
  else .ok { id := id, start_node_id := start_node_id,
             end_node_id := end_node_id, capacity := capacity, flow := flow }

/-- `Graph.add_node`.  The Python call builds `Node(node_id, name or node_id,
is_source, is_sink)`; `name or node_id` is the empty-string default. -/
def Graph.add_node (g : Graph) (node_id name : String)
    (is_source is_sink : Bool) : Except PyError (Node × Graph) :=
  if dictContains g.nodes node_id then
    .error (.invalidInput "node id exists")
  else
    exThen (mkNode node_id (if name = "" then node_id else name) is_source is_sink)
      (fun n =>
        .ok (n, { g with nodes := g.nodes ++ [(node_id, n)],
                         adjacency_list := g.adjacency_list ++ [(node_id, [])] }))

/-- `Graph.get_node`.  On a missing id the source executes
`raise NodeNotFoundError(node_id)` with `NodeNotFoundError` unbound in
graph.py, hence a NameError. -/
def Graph.get_node (g : Graph) (node_id : String) : Except PyError Node :=
  orRaise (dictFind g.nodes node_id) (.nameError "NodeNotFoundError")

/-- `Graph.get_edge`; missing id raises a NameError for the unbound
`EdgeNotFoundError` (see `Graph.get_node`). -/
def Graph.get_edge (g : Graph) (edge_id : String) : Except PyError Edge :=
  orRaise (dictFind g.edges edge_id) (.nameError "EdgeNotFoundError")

/-- `Graph.add_edge`. -/
def Graph.add_edge (g : Graph) (edge_id start_node_id end_node_id : String)
    (capacity : ℚ) : Except PyError (Edge × Graph) :=
  if dictContains g.edges edge_id then
    .error (.invalidInput "edge id exists")
  else
    exThen (g.get_node start_node_id) (fun _ =>
    exThen (g.get_node end_node_id) (fun _ =>
      if start_node_id = end_node_id then
        .error (.invalidInput "self loop")
      else
        exThen (mkEdge edge_id start_node_id end_node_id capacity 0) (fun e =>
          .ok (e, { g with
              edges := g.edges ++ [(edge_id, e)],
              adjacency_list :=
                dictModify g.adjacency_list start_node_id
                  (fun l => l ++ [edge_id]) }))))

/-- `Graph.get_edges_from_node`: outgoing edges in adjacency order; unknown
node id yields the empty list.  The Python body indexes `self.edges[edge_id]`
directly; under the graph invariant every adjacency entry is a live edge id,
so the lookup is modelled by `filterMap`. -/
def Graph.get_edges_from_node (g : Graph) (node_id : String) : List Edge :=
  match dictFind g.adjacency_list node_id with
  | none => []
  | some ids => ids.filterMap (fun eid => dictFind g.edges eid)

/-- `Graph.get_all_nodes` (dict values in insertion order). -/
def Graph.get_all_nodes (g : Graph) : List Node := g.nodes.map (·.2)

/-- `Graph.get_all_edges` (dict values in insertion order). -/
def Graph.get_all_edges (g : Graph) : List Edge := g.edges.map (·.2)

/-- `Graph.get_source_nodes`. -/
def Graph.get_source_nodes (g : Graph) : List Node :=
  (g.nodes.map (·.2)).filter (·.is_source)

/-- `Graph.get_sink_nodes`. -/
def Graph.get_sink_nodes (g : Graph) : List Node :=
  (g.nodes.map (·.2)).filter (·.is_sink)

/-- Helper used by `_update_flows`: set the flow of the edge object stored
under `edge_id` (Python mutates the shared Edge object). -/
def Graph.setEdgeFlow (g : Graph) (edge_id : String) (f : ℚ) : Graph :=
  { g with edges := dictModify g.edges edge_id (fun e => { e with flow := f }) }

/-- All edge target ids of a graph.  Every name a worklist loop can visit,
other than its starting name, is in this list; it underlies the termination
measure of the three traversal loops below. -/
def Graph.arcEnds (g : Graph) : List String :=
  g.edges.map (fun p => p.2.end_node_id)

/-- Termination measure for the traversal loops: the number of distinct names
in the worklist or reachable through an arc that are not yet visited. -/
def poolCard (g : Graph) (work visited : List String) : Nat :=
  ((work ++ g.arcEnds).toFinset \ visited.toFinset).card

/-- One pass of the neighbor loop of `_bfs` (`for edge in
residual_graph.get_edges_from_node(current_id)`): every arc endpoint that is
unvisited and whose arc has positive capacity is marked visited, gets a
parent entry `(current, arc id)`, and is enqueued.  The result is bundled
with the facts about the freshly visited names that the termination argument
of the surrounding loop needs. -/
def bfs_scan (current : String) :
    (arcs : List Edge) → (visited : List String) →
    (parent : Dict (String × String)) → (queue : List String) →
    { st : List String × Dict (String × String) × List String //
      ∃ fresh : List String,
        st.1 = visited ++ fresh ∧ st.2.2 = queue ++ fresh ∧ fresh.Nodup ∧
        ∀ x ∈ fresh, x ∈ arcs.map Edge.end_node_id ∧ ¬ x ∈ visited }
  | [], visited, parent, queue =>
    ⟨(visited, parent, queue), [], by simp, by simp, by simp, by simp⟩
  | edge :: arcs, visited, parent, queue =>
    if h : ¬ edge.end_node_id ∈ visited ∧ edge.capacity > 0 then
      let r := bfs_scan current arcs (visited ++ [edge.end_node_id])
        (parent ++ [(edge.end_node_id, (current, edge.id))])
        (queue ++ [edge.end_node_id])
      ⟨r.1, by
        obtain ⟨fresh, h1, h2, h3, h4⟩ := r.2
        refine ⟨edge.end_node_id :: fresh, ?_, ?_, ?_, ?_⟩
        · rw [h1, List.append_assoc]; rfl
        · rw [h2, List.append_assoc]; rfl
        · exact List.nodup_cons.2 ⟨fun hx => by simpa using ((h4 _ hx).2), h3⟩
        · intro x hx
          rcases List.mem_cons.1 hx with rfl | hx'
          · exact ⟨by simp, h.1⟩
          · refine ⟨by simpa using Or.inr ((h4 x hx').1), fun hv => (h4 x hx').2 ?_⟩
            simp [hv]⟩
    else
      let r := bfs_scan current arcs visited parent queue
      ⟨r.1, by
        obtain ⟨fresh, h1, h2, h3, h4⟩ := r.2
        exact ⟨fresh, h1, h2, h3, fun x hx =>
          ⟨by simpa using Or.inr ((h4 x hx).1), (h4 x hx).2⟩⟩⟩

/-- The `while queue` loop of `FordFulkerson._bfs`: pop from the left, return
the parent map as soon as the sink is popped, otherwise scan the outgoing
arcs of the popped name.  In the source, `visited` is a set and `parent` a
dict; both are modelled as insertion-ordered lists (a parent key is written
at most once, when its node is first visited, so first-binding lookup agrees
with the Python dict). -/
def bfs_loop (rg : Graph) (sink_id : String) :
    (queue visited : List String) → (parent : Dict (String × String)) →
    Option (Dict (String × String))
  | [], _, _ => none
  | current :: rest, visited, parent =>
    if current = sink_id then some parent
    else
      let r := bfs_scan current (rg.get_edges_from_node current) visited parent rest
      bfs_loop rg sink_id r.1.2.2 r.1.1 r.1.2.1
termination_by queue visited _ => (poolCard rg queue visited, queue.length)
decreasing_by
  simp_wf
  obtain ⟨fresh, h1, h2, h3, h4⟩ :=
    (bfs_scan current (rg.get_edges_from_node current) visited parent rest).2
  have harc : ∀ e ∈ rg.get_edges_from_node current, e.end_node_id ∈ rg.arcEnds := by
    intro e he
    unfold Graph.get_edges_from_node at he
    rcases hfind : dictFind rg.adjacency_list current with _ | ids <;> rw [hfind] at he
    · exact absurd he (List.not_mem_nil e)
    · obtain ⟨eid, _hmem, hd⟩ := List.mem_filterMap.1 he
      unfold dictFind at hd
      rcases hfind2 : rg.edges.find? (fun p => p.1 = eid) with _ | p
      · rw [hfind2] at hd; simp at hd
      · rw [hfind2] at hd
        simp only [Option.map_some'] at hd
        have hp := List.mem_of_find?_eq_some hfind2
        obtain rfl := Option.some.inj hd
        exact List.mem_map_of_mem (fun q => q.2.end_node_id) hp
  have hfresh_pool : ∀ x ∈ fresh, x ∈ rg.arcEnds := by
    intro x hx
    obtain ⟨e, he, rfl⟩ := List.mem_map.1 (h4 x hx).1
    exact harc e he
  have hsub : ((rest ++ fresh) ++ rg.arcEnds).toFinset \ (visited ++ fresh).toFinset ⊆
      ((current :: rest) ++ rg.arcEnds).toFinset \ visited.toFinset := by
    intro x hx
    simp only [Finset.mem_sdiff, List.mem_toFinset, List.mem_append, List.mem_cons] at hx ⊢
    rcases hx with ⟨hx1, hx2⟩
    have hx3 : x ∈ fresh → x ∈ rg.arcEnds := hfresh_pool x
    exact ⟨by tauto, by tauto⟩
  rw [h1, h2]
  rcases fresh with _ | ⟨x, fresh'⟩
  · simp only [List.append_nil] at hsub ⊢
    have hle : poolCard rg rest visited ≤ poolCard rg (current :: rest) visited := by
      unfold poolCard
      exact Finset.card_le_card (by simpa using hsub)
    rcases Nat.lt_or_ge (poolCard rg rest visited) (poolCard rg (current :: rest) visited) with hlt | hge
    · exact Prod.Lex.left _ _ hlt
    · have heq : poolCard rg rest visited = poolCard rg (current :: rest) visited :=
        Nat.le_antisymm hle hge
      rw [heq]
      exact Prod.Lex.right _ (Nat.lt_succ_self _)
  · have hxA : x ∈ ((current :: rest) ++ rg.arcEnds).toFinset \ visited.toFinset := by
      simp only [Finset.mem_sdiff, List.mem_toFinset]
      refine ⟨?_, (h4 x (by simp)).2⟩
      have hx := hfresh_pool x (by simp)
      simp only [List.mem_append]
      exact Or.inr hx
    have hxB : ¬ x ∈ ((rest ++ x :: fresh') ++ rg.arcEnds).toFinset \
        (visited ++ x :: fresh').toFinset := by
      simp only [Finset.mem_sdiff, List.mem_toFinset]
      intro hc
      exact hc.2 (by simp)
    have hlt : poolCard rg (rest ++ x :: fresh') (visited ++ x :: fresh') <
        poolCard rg (current :: rest) visited := by
      unfold poolCard
      exact Finset.card_lt_card (Finset.ssubset_iff_of_subset hsub |>.2 ⟨x, hxA, hxB⟩)
    exact Prod.Lex.left _ _ hlt

/-- `FordFulkerson._bfs`: breadth-first search for an augmenting path.
Returns the parent map if the sink is reached, otherwise nothing
(the Python function returns `None`). -/
def bfs (rg : Graph) (source_id sink_id : String) :
    Option (Dict (String × String)) :=
  bfs_loop rg sink_id [source_id] [source_id] []

/-- The `while queue` loop of `get_min_cut`: identical traversal rule to
`_bfs` but with no early exit and no parent map; collects every name
reachable through positive-capacity arcs.  It reuses `bfs_scan` and discards
the (unused) parent component.  The returned list is the visited set in
discovery order; only its membership is meaningful (the source materialises
it from a Python set). -/
def reach_loop (rg : Graph) :
    (queue visited : List String) → List String
  | [], visited => visited
  | current :: rest, visited =>
    let r := bfs_scan current (rg.get_edges_from_node current) visited [] rest
    reach_loop rg r.1.2.2 r.1.1
termination_by queue visited => (poolCard rg queue visited, queue.length)
decreasing_by
  simp_wf
  obtain ⟨fresh, h1, h2, h3, h4⟩ :=
    (bfs_scan current (rg.get_edges_from_node current) visited [] rest).2
  have harc : ∀ e ∈ rg.get_edges_from_node current, e.end_node_id ∈ rg.arcEnds := by
    intro e he
    unfold Graph.get_edges_from_node at he
    rcases hfind : dictFind rg.adjacency_list current with _ | ids <;> rw [hfind] at he
    · exact absurd he (List.not_mem_nil e)
    · obtain ⟨eid, _hmem, hd⟩ := List.mem_filterMap.1 he
      unfold dictFind at hd
      rcases hfind2 : rg.edges.find? (fun p => p.1 = eid) with _ | p
      · rw [hfind2] at hd; simp at hd
      · rw [hfind2] at hd
        simp only [Option.map_some'] at hd
        have hp := List.mem_of_find?_eq_some hfind2
        obtain rfl := Option.some.inj hd
        exact List.mem_map_of_mem (fun q => q.2.end_node_id) hp
  have hfresh_pool : ∀ x ∈ fresh, x ∈ rg.arcEnds := by
    intro x hx
    obtain ⟨e, he, rfl⟩ := List.mem_map.1 (h4 x hx).1
    exact harc e he
  have hsub : ((rest ++ fresh) ++ rg.arcEnds).toFinset \ (visited ++ fresh).toFinset ⊆
      ((current :: rest) ++ rg.arcEnds).toFinset \ visited.toFinset := by
    intro x hx
    simp only [Finset.mem_sdiff, List.mem_toFinset, List.mem_append, List.mem_cons] at hx ⊢
    rcases hx with ⟨hx1, hx2⟩
    have hx3 : x ∈ fresh → x ∈ rg.arcEnds := hfresh_pool x
    exact ⟨by tauto, by tauto⟩
  rw [h1, h2]
  rcases fresh with _ | ⟨x, fresh'⟩
  · simp only [List.append_nil] at hsub ⊢
    have hle : poolCard rg rest visited ≤ poolCard rg (current :: rest) visited := by
      unfold poolCard
      exact Finset.card_le_card (by simpa using hsub)
    rcases Nat.lt_or_ge (poolCard rg rest visited) (poolCard rg (current :: rest) visited) with hlt | hge
    · exact Prod.Lex.left _ _ hlt
    · have heq : poolCard rg rest visited = poolCard rg (current :: rest) visited :=
        Nat.le_antisymm hle hge
      rw [heq]
      exact Prod.Lex.right _ (Nat.lt_succ_self _)
  · have hxA : x ∈ ((current :: rest) ++ rg.arcEnds).toFinset \ visited.toFinset := by
      simp only [Finset.mem_sdiff, List.mem_toFinset]
      refine ⟨?_, (h4 x (by simp)).2⟩
      have hx := hfresh_pool x (by simp)
      simp only [List.mem_append]
      exact Or.inr hx
    have hxB : ¬ x ∈ ((rest ++ x :: fresh') ++ rg.arcEnds).toFinset \
        (visited ++ x :: fresh').toFinset := by
      simp only [Finset.mem_sdiff, List.mem_toFinset]
      intro hc
      exact hc.2 (by simp)
    have hlt : poolCard rg (rest ++ x :: fresh') (visited ++ x :: fresh') <
        poolCard rg (current :: rest) visited := by
      unfold poolCard
      exact Finset.card_lt_card (Finset.ssubset_iff_of_subset hsub |>.2 ⟨x, hxA, hxB⟩)
    exact Prod.Lex.left _ _ hlt

/-- The `while stack` loop of `FlowNetwork.validate_network`: a depth-first
reachability check.  Python pops from the end of the list; the stack is
modelled with its top at the head, so pushing the successors of `current`
appends their reversed list at the front.  Returns true when the sink is
popped (the `break` path) and false when the stack empties (the
`while ... else` path, which raises NetworkNotValid, caught and turned into
`False` by the surrounding `try`). -/
def dfs_loop (g : Graph) (sink_id : String) :
    (stack visited : List String) → Bool
  | [], _ => false
  | current :: rest, visited =>
    if current = sink_id then true
    else if current ∈ visited then dfs_loop g sink_id rest visited
    else dfs_loop g sink_id
      (((g.get_edges_from_node current).map (fun e => e.end_node_id)).reverse ++ rest)
      (visited ++ [current])
termination_by stack visited => (poolCard g stack visited, stack.length)
decreasing_by
  all_goals simp_wf
  · have hsub : (rest ++ g.arcEnds).toFinset \ visited.toFinset ⊆
        ((current :: rest) ++ g.arcEnds).toFinset \ visited.toFinset := by
      intro x hx
      simp only [Finset.mem_sdiff, List.mem_toFinset, List.mem_append, List.mem_cons] at hx ⊢
      tauto
    have hle : poolCard g rest visited ≤ poolCard g (current :: rest) visited :=
      Finset.card_le_card hsub
    rcases Nat.lt_or_ge (poolCard g rest visited) (poolCard g (current :: rest) visited) with hlt | hge
    · exact Prod.Lex.left _ _ hlt
    · have heq : poolCard g rest visited = poolCard g (current :: rest) visited :=
        Nat.le_antisymm hle hge
      rw [heq]
      exact Prod.Lex.right _ (Nat.lt_succ_self _)
  · rename_i hv
    have harc : ∀ e ∈ g.get_edges_from_node current, e.end_node_id ∈ g.arcEnds := by
      intro e he
      unfold Graph.get_edges_from_node at he
      rcases hfind : dictFind g.adjacency_list current with _ | ids <;> rw [hfind] at he
      · exact absurd he (List.not_mem_nil e)
      · obtain ⟨eid, _hmem, hd⟩ := List.mem_filterMap.1 he
        unfold dictFind at hd
        rcases hfind2 : g.edges.find? (fun p => p.1 = eid) with _ | p
        · rw [hfind2] at hd; simp at hd
        · rw [hfind2] at hd
          simp only [Option.map_some'] at hd
          have hp := List.mem_of_find?_eq_some hfind2
          obtain rfl := Option.some.inj hd
          exact List.mem_map_of_mem (fun q => q.2.end_node_id) hp
    have hsub : ((((g.get_edges_from_node current).map (fun e => e.end_node_id)).reverse
          ++ rest) ++ g.arcEnds).toFinset \ (visited ++ [current]).toFinset ⊆
        ((current :: rest) ++ g.arcEnds).toFinset \ visited.toFinset := by
      intro x hx
      rw [Finset.mem_sdiff] at hx ⊢
      rcases hx with ⟨hx1, hx2⟩
      constructor
      · rw [List.mem_toFinset] at hx1 ⊢
        rcases List.mem_append.1 hx1 with hx1 | hx1
        · rcases List.mem_append.1 hx1 with hx1 | hx1
          · rw [List.mem_reverse] at hx1
            obtain ⟨e, he, rfl⟩ := List.mem_map.1 hx1
            exact List.mem_append.2 (Or.inr (harc e he))
          · exact List.mem_append.2 (Or.inl (List.mem_cons_of_mem _ hx1))
        · exact List.mem_append.2 (Or.inr hx1)
      · rw [List.mem_toFinset] at hx2 ⊢
        intro hc
        exact hx2 (List.mem_append.2 (Or.inl hc))
    have hxA : current ∈ ((current :: rest) ++ g.arcEnds).toFinset \ visited.toFinset := by
      simp only [Finset.mem_sdiff, List.mem_toFinset]
      exact ⟨by simp, hv⟩
    have hxB : ¬ current ∈ ((((g.get_edges_from_node current).map (fun e => e.end_node_id)).reverse
          ++ rest) ++ g.arcEnds).toFinset \ (visited ++ [current]).toFinset := by
      simp only [Finset.mem_sdiff, List.mem_toFinset]
      intro hc
      exact hc.2 (by simp)
    exact Prod.Lex.left _ _
      (Finset.card_lt_card (Finset.ssubset_iff_of_subset hsub |>.2 ⟨current, hxA, hxB⟩))

/-- The `while current_id != source_id` walk of `_find_augmenting_path`:
follows the parent map from the sink back to the source, taking the minimum
arc capacity (Python starts from `float('inf')`, modelled as `none`) and
collecting the arc ids; the collected list is reversed on return, as in the
source.  A missing parent entry is a Python KeyError.  The fuel is set by the
caller to `parent.length + 1`: a walk that runs longer must repeat a key and
therefore cycles forever in Python, which is reported as `div`. -/
def walk_parent (rg : Graph) (parent : Dict (String × String))
    (source_id : String) :
    Nat → String → Option ℚ → List String → PyRes (Option ℚ × List String)
  | fuel, current_id, min_capacity, path =>
    if current_id = source_id then .ok (min_capacity, path.reverse)
    else
      match fuel with
      | 0 => .div
      | fuel + 1 =>
        match dictFind parent current_id with
        | none => .err (.keyError current_id)
        | some pr =>
          pyThen (rg.get_edge pr.2) (fun edge =>
            walk_parent rg parent source_id fuel pr.1
              (some (match min_capacity with
                     | none => edge.capacity
                     | some m => min m edge.capacity))
              (path ++ [pr.2]))

/-- `FordFulkerson._find_augmenting_path`.  Note the Python guard
`if not parent` is true both for `None` (sink unreachable) and for an empty
parent dict.  The bottleneck is `none` only if the walk takes no step, which
cannot happen when source and sink differ. -/
def find_augmenting_path (rg : Graph) (source_id sink_id : String) :
    PyRes (Option (Option ℚ × List String)) :=
  match bfs rg source_id sink_id with
  | none => .ok none
  | some parent =>
    if parent = [] then .ok none
    else
      resThen (walk_parent rg parent source_id (parent.length + 1) sink_id none [])
        (fun r => .ok (some r))

/-- Python `str.endswith(suffix)`. -/
def pyEndsWith (s suffix : String) : Bool :=
  suffix.data.isSuffixOf s.data

/-- Scanning loop of Python `str.replace(pattern, replacement)`: left-to-right,
non-overlapping, replacing every occurrence.  The `pending` counter is the
number of characters of a just-matched pattern still to be consumed.  Only
called with the nonempty patterns `"_forward"` and `"_backward"`. -/
def pyReplaceAux (pattern replacement : List Char) :
    List Char → Nat → List Char
  | [], _ => []
  | _ :: rest, pending + 1 => pyReplaceAux pattern replacement rest pending
  | c :: rest, 0 =>
    if pattern.isPrefixOf (c :: rest) then
      replacement ++ pyReplaceAux pattern replacement rest (pattern.length - 1)
    else c :: pyReplaceAux pattern replacement rest 0

/-- Python `str.replace(pattern, replacement)` (all occurrences). -/
def pyReplace (s pattern replacement : String) : String :=
  ⟨pyReplaceAux pattern.data replacement.data s.data 0⟩

/-- `FordFulkerson._update_flows`: for each arc id on the path, strip the
`_forward` / `_backward` suffix and add/subtract the pushed flow on the
original edge.  Faithful to the source, the suffix is stripped with
`str.replace`, which in Python replaces every occurrence of the pattern, not
only the final suffix. -/
def update_flows (g : Graph) (path : List String) (flow : ℚ) :
    Except PyError Graph :=
  match path with
  | [] => .ok g
  | edge_id :: rest =>
    if pyEndsWith edge_id "_forward" then
      let original_edge_id := pyReplace edge_id "_forward" ""
      exThen (g.get_edge original_edge_id) (fun original_edge =>
        update_flows (g.setEdgeFlow original_edge_id (original_edge.flow + flow))
          rest flow)
    else if pyEndsWith edge_id "_backward" then
      let original_edge_id := pyReplace edge_id "_backward" ""
      exThen (g.get_edge original_edge_id) (fun original_edge =>
        update_flows (g.setEdgeFlow original_edge_id (original_edge.flow - flow))
          rest flow)
    else update_flows g rest flow

/-- The node-copying loop of `FordFulkerson._build_residual_graph`
(`for node in self.graph.get_all_nodes()`). -/
def copy_nodes_loop (nodes : List Node) (rg : Graph) : Except PyError Graph :=
  match nodes with
  | [] => .ok rg
  | node :: rest =>
    exThen (rg.add_node node.id node.name node.is_source node.is_sink)
      (fun pr => copy_nodes_loop rest pr.2)

/-- The node-copying phase of `FordFulkerson._build_residual_graph`. -/
def copy_nodes (g : Graph) : Except PyError Graph :=
  copy_nodes_loop g.get_all_nodes Graph.empty

/-- The per-edge phase of `_build_residual_graph`: a forward arc
`<id>_forward` with the residual capacity when it is positive, then a
backward arc `<id>_backward` with the current flow when it is positive. -/
def add_residual_arcs (rg : Graph) (edge : Edge) : Except PyError Graph :=
  exThen
    (if edge.residual_capacity > 0 then
      exThen (rg.add_edge (edge.id ++ "_forward") edge.start_node_id
        edge.end_node_id edge.residual_capacity) (fun pr => .ok pr.2)
     else .ok rg)
    (fun rg1 =>
      if edge.flow > 0 then
        exThen (rg1.add_edge (edge.id ++ "_backward") edge.end_node_id
          edge.start_node_id edge.flow) (fun pr => .ok pr.2)
      else .ok rg1)

/-- The per-edge loop of `_build_residual_graph`
(`for edge in self.graph.get_all_edges()`). -/
def residual_arcs_loop (edges : List Edge) (rg : Graph) : Except PyError Graph :=
  match edges with
  | [] => .ok rg
  | edge :: rest =>
    exThen (add_residual_arcs rg edge) (fun rg' => residual_arcs_loop rest rg')

/-- `FordFulkerson._build_residual_graph`: copy the nodes, then add the
forward/backward arcs of every edge, iterating the dicts in insertion
order. -/
def build_residual_graph (g : Graph) : Except PyError Graph :=
  exThen (copy_nodes g) (fun rg => residual_arcs_loop g.get_all_edges rg)

/-- The `while True` loop of `calculate_max_flow`: rebuild the residual
graph, search for an augmenting path, and push the bottleneck flow; stop when
no path is found, returning the accumulated value together with the final
graph and the final residual graph (the Python object keeps the latter in
`self.residual_graph`, and `get_min_cut` reads it).  This loop can run
forever in Python, hence the fuel.  The bottleneck `none` (float infinity)
cannot occur because the caller enforces source ≠ sink, so the walk takes at
least one step; `Option.getD 0` merely totalises that dead branch. -/
def ff_loop (source_id sink_id : String) :
    Nat → Graph → ℚ → PyRes (ℚ × Graph × Graph)
  | 0, _, _ => .div
  | fuel + 1, g, max_flow =>
    pyThen (build_residual_graph g) (fun rg =>
      resThen (find_augmenting_path rg source_id sink_id) (fun result =>
        match result with
        | none => .ok (max_flow, g, rg)
        | some r =>
          let flow := r.1.getD 0
          pyThen (update_flows g r.2 flow) (fun g' =>
            ff_loop source_id sink_id fuel g' (max_flow + flow))))

/-- `FordFulkerson.calculate_max_flow`: validation followed by the
augmentation loop.  The two membership checks raise `NodeNotFoundError`,
which is unbound in algorithms.py, so a NameError surfaces instead. -/
def calculate_max_flow (g : Graph) (source_id sink_id : String) (fuel : Nat) :
    PyRes (ℚ × Graph × Graph) :=
  if ¬ dictContains g.nodes source_id then .err (.nameError "NodeNotFoundError")
  else if ¬ dictContains g.nodes sink_id then .err (.nameError "NodeNotFoundError")
  else if source_id = sink_id then
    .err (.networkNotValid "source and sink are the same node")
  else
    pyThen (g.get_node source_id) (fun source_node =>
      if ¬ source_node.is_source then .err (.networkNotValid "not a source")
      else
        pyThen (g.get_node sink_id) (fun sink_node =>
          if ¬ sink_node.is_sink then .err (.networkNotValid "not a sink")
          else ff_loop source_id sink_id fuel g 0))

/-- `FordFulkerson.get_min_cut`: one reachability pass over the final
residual graph `rg`; `S` is the visited set and `T` the remaining node ids of
the original graph `g`, in node-dict insertion order. -/
def get_min_cut (g rg : Graph) (source_id : String) :
    List String × List String :=
  let visited := reach_loop rg [source_id] [source_id]
  (visited, (g.nodes.map (·.1)).filter (fun node_id => ¬ node_id ∈ visited))

/-- `FlowNetwork.get_source_node`: first source node, NetworkNotValid when
there is none. -/
def get_source_node (g : Graph) : Except PyError Node :=
  match g.get_source_nodes with
  | [] => .error (.networkNotValid "no source in the network")
  | s :: _ => .ok s

/-- `FlowNetwork.get_sink_node`. -/
def get_sink_node (g : Graph) : Except PyError Node :=
  match g.get_sink_nodes with
  | [] => .error (.networkNotValid "no sink in the network")
  | s :: _ => .ok s

/-- `FlowNetwork.calculate_max_flow`: resolve source and sink, run the
solver, then extract the min cut from the final residual graph. -/
def network_calculate_max_flow (g : Graph) (fuel : Nat) :
    PyRes (ℚ × List String × List String) :=
  pyThen (get_source_node g) (fun source =>
    pyThen (get_sink_node g) (fun sink =>
      resThen (calculate_max_flow g source.id sink.id fuel) (fun r =>
        let cut := get_min_cut r.2.1 r.2.2 source.id
        .ok (r.1, cut.1, cut.2))))

/-- `FlowNetwork.reset_flows`: zero the flow of every edge. -/
def reset_flows (g : Graph) : Graph :=
  { g with edges := g.edges.map (fun p => (p.1, { p.2 with flow := 0 })) }

/-- `FlowNetwork.update_edge_capacity`. -/
def update_edge_capacity (g : Graph) (edge_id : String) (new_capacity : ℚ) :
    Except PyError Graph :=
  exThen (g.get_edge edge_id) (fun edge =>
    if new_capacity < edge.flow then
      .error (.invalidInput "new capacity is below the current flow")
    else
      .ok { g with edges :=
              dictModify g.edges edge_id (fun e => { e with capacity := new_capacity }) })

/-- `FlowNetwork.validate_network`: exactly one source, exactly one sink, and
the sink reachable from the source by the DFS above; every NetworkNotValid
raised inside is caught and turned into `false`. -/
def validate_network (g : Graph) : Bool :=
  match g.get_source_nodes, g.get_sink_nodes with
  | [source], [sink] => dfs_loop g sink.id [source.id] []
  | _, _ => false

/-- A construction step of a network: the public node/edge insertions of the
facade (used to express that two networks built by the same insertion
sequence coincide). -/
inductive NetOp where
  | addNode (id name : String) (is_source is_sink : Bool)
  | addEdge (id start_id end_id : String) (capacity : ℚ)
deriving Repr, DecidableEq

/-- Apply a sequence of insertions to a graph, aborting on the first error,
exactly as the Python calls would. -/
def applyOps (g : Graph) (ops : List NetOp) : Except PyError Graph :=
  match ops with
  | [] => .ok g
  | .addNode id name is_source is_sink :: rest =>
    exThen (g.add_node id name is_source is_sink) (fun pr => applyOps pr.2 rest)
  | .addEdge id start_id end_id capacity :: rest =>
    exThen (g.add_edge id start_id end_id capacity) (fun pr => applyOps pr.2 rest)

/-- Build a network by a sequence of insertions starting from `Graph()`. -/
def buildNetwork (ops : List NetOp) : Except PyError Graph :=
  applyOps Graph.empty ops

/-- Stated from the spec, for checking the max-flow/min-cut property: the sum
of the capacities of the original (non-residual) edges whose start node lies
in `S` and whose end node lies in `T`. -/
def cut_capacity (g : Graph) (S T : List String) : ℚ :=
  ((g.get_all_edges.filter (fun e =>
      S.contains e.start_node_id && T.contains e.end_node_id)).map
    Edge.capacity).sum

/-- Stated from the spec: total flow over all edges ending at a node. -/
def inflow (g : Graph) (node_id : String) : ℚ :=
  ((g.get_all_edges.filter (fun e => e.end_node_id == node_id)).map
    Edge.flow).sum

/-- Stated from the spec: total flow over all edges starting at a node. -/
def outflow (g : Graph) (node_id : String) : ℚ :=
  ((g.get_all_edges.filter (fun e => e.start_node_id == node_id)).map
    Edge.flow).sum

/-- Everything about a graph's edges except their flows: key, id, endpoints
and capacity, in dict order.  The solver only ever mutates flows, which is
captured by preservation of this shape. -/
def edges_shape (g : Graph) : List (String × String × String × String × ℚ) :=
  g.edges.map (fun p =>
    (p.1, p.2.id, p.2.start_node_id, p.2.end_node_id, p.2.capacity))

/-- The structural invariant every graph reachable through the public API
satisfies: node and edge keys are unique, each stored object's id equals its
key, ids and names are nonempty, edge endpoints exist, and there are no
self-loops. -/
def Graph.wf (g : Graph) : Prop :=
  (g.nodes.map (·.1)).Nodup ∧
  (g.edges.map (·.1)).Nodup ∧
  (∀ p ∈ g.nodes, p.2.id = p.1 ∧ p.1 ≠ "" ∧ p.2.name ≠ "") ∧
  (∀ p ∈ g.edges, p.2.id = p.1 ∧
      dictContains g.nodes p.2.start_node_id = true ∧
      dictContains g.nodes p.2.end_node_id = true ∧
      p.2.start_node_id ≠ p.2.end_node_id)

/-- The residual arc dictionary as the spec describes it: for each original
edge, a forward arc under id `<id>_forward` with the residual capacity when
that is positive, then a backward arc under id `<id>_backward` with the flow
when that is positive, and nothing else. -/
def specResidualArcs (edges : List Edge) : Dict Edge :=
  edges.flatMap (fun e =>
    (if e.residual_capacity > 0 then
      [(e.id ++ "_forward",
        { id := e.id ++ "_forward", start_node_id := e.start_node_id,
          end_node_id := e.end_node_id, capacity := e.residual_capacity,
          flow := 0 })]
     else []) ++
    (if e.flow > 0 then
      [(e.id ++ "_backward",
        { id := e.id ++ "_backward", start_node_id := e.end_node_id,
          end_node_id := e.start_node_id, capacity := e.flow, flow := 0 })]
     else []))

/- Concrete networks used by the claims.  `G1` is a valid network whose edge
id "a_forwardb" contains the substring "_forward", so str.replace in
`_update_flows` collapses the residual arc id "a_forwardb_forward" to "ab"
and the solver pushes flow onto the wrong edge. -/

/-- Four nodes s, x, y, t; edges "a_forwardb": s→x (2), "xt": x→t (2),
"sy": s→y (1), "ab": y→t (1); s is the source, t the sink. -/
def G1 : Graph :=
  { nodes := [("s", { id := "s", name := "s", is_source := true, is_sink := false }),
              ("x", { id := "x", name := "x", is_source := false, is_sink := false }),
              ("y", { id := "y", name := "y", is_source := false, is_sink := false }),
              ("t", { id := "t", name := "t", is_source := false, is_sink := true })],
    edges := [("a_forwardb", { id := "a_forwardb", start_node_id := "s", end_node_id := "x", capacity := 2, flow := 0 }),
              ("xt", { id := "xt", start_node_id := "x", end_node_id := "t", capacity := 2, flow := 0 }),
              ("sy", { id := "sy", start_node_id := "s", end_node_id := "y", capacity := 1, flow := 0 }),
              ("ab", { id := "ab", start_node_id := "y", end_node_id := "t", capacity := 1, flow := 0 })],
    adjacency_list := [("s", ["a_forwardb", "sy"]), ("x", ["xt"]), ("y", ["ab"]), ("t", [])] }

/-- The node-copy of `G1` (an empty residual graph before arcs are added). -/
def NG1 : Graph :=
  { nodes := G1.nodes, edges := [],
    adjacency_list := [("s", []), ("x", []), ("y", []), ("t", [])] }

/-- The residual graph of `G1` with all-zero flows. -/
def RG1a : Graph :=
  { nodes := G1.nodes,
    edges := [("a_forwardb_forward", { id := "a_forwardb_forward", start_node_id := "s", end_node_id := "x", capacity := 2, flow := 0 }),
              ("xt_forward", { id := "xt_forward", start_node_id := "x", end_node_id := "t", capacity := 2, flow := 0 }),
              ("sy_forward", { id := "sy_forward", start_node_id := "s", end_node_id := "y", capacity := 1, flow := 0 }),
              ("ab_forward", { id := "ab_forward", start_node_id := "y", end_node_id := "t", capacity := 1, flow := 0 })],
    adjacency_list := [("s", ["a_forwardb_forward", "sy_forward"]), ("x", ["xt_forward"]), ("y", ["ab_forward"]), ("t", [])] }

/-- `G1` after the first (and only) augmentation of the run: the bottleneck 2
of the path s→x→t was pushed onto edge "xt" and, through the collapsed id,
onto edge "ab" (capacity 1!) instead of "a_forwardb". -/
def G1b : Graph :=
  { nodes := G1.nodes,
    edges := [("a_forwardb", { id := "a_forwardb", start_node_id := "s", end_node_id := "x", capacity := 2, flow := 0 }),
              ("xt", { id := "xt", start_node_id := "x", end_node_id := "t", capacity := 2, flow := 2 }),
              ("sy", { id := "sy", start_node_id := "s", end_node_id := "y", capacity := 1, flow := 0 }),
              ("ab", { id := "ab", start_node_id := "y", end_node_id := "t", capacity := 1, flow := 2 })],
    adjacency_list := G1.adjacency_list }

/-- The final residual graph of the `G1` run. -/
def RG1b : Graph :=
  { nodes := G1.nodes,
    edges := [("a_forwardb_forward", { id := "a_forwardb_forward", start_node_id := "s", end_node_id := "x", capacity := 2, flow := 0 }),
              ("xt_backward", { id := "xt_backward", start_node_id := "t", end_node_id := "x", capacity := 2, flow := 0 }),
              ("sy_forward", { id := "sy_forward", start_node_id := "s", end_node_id := "y", capacity := 1, flow := 0 }),
              ("ab_backward", { id := "ab_backward", start_node_id := "t", end_node_id := "y", capacity := 2, flow := 0 })],
    adjacency_list := [("s", ["a_forwardb_forward", "sy_forward"]), ("x", []), ("y", []), ("t", ["xt_backward", "ab_backward"])] }

/-- Two nodes s (source) and t (sink) and two parallel edges
"ab": s→t (1) and "a_forwardb": s→t (5), with the flow of "ab" left as a
parameter.  Pushing on "a_forwardb"'s forward arc updates "ab" instead, so
"a_forwardb" never saturates and the solver loops forever. -/
def G4f (f : ℚ) : Graph :=
  { nodes := [("s", { id := "s", name := "s", is_source := true, is_sink := false }),
              ("t", { id := "t", name := "t", is_source := false, is_sink := true })],
    edges := [("ab", { id := "ab", start_node_id := "s", end_node_id := "t", capacity := 1, flow := f }),
              ("a_forwardb", { id := "a_forwardb", start_node_id := "s", end_node_id := "t", capacity := 5, flow := 0 })],
    adjacency_list := [("s", ["ab", "a_forwardb"]), ("t", [])] }

/-- The divergence network with its initial all-zero flows. -/
def G4 : Graph := G4f 0

/-- The residual graph of `G4f f` when `1 ≤ f`: edge "ab" yields only the
backward arc and "a_forwardb" only the forward arc. -/
def RG4 (f : ℚ) : Graph :=
  { nodes := (G4f f).nodes,
    edges := [("ab_backward", { id := "ab_backward", start_node_id := "t", end_node_id := "s", capacity := f, flow := 0 }),
              ("a_forwardb_forward", { id := "a_forwardb_forward", start_node_id := "s", end_node_id := "t", capacity := 5, flow := 0 })],
    adjacency_list := [("s", ["a_forwardb_forward"]), ("t", ["ab_backward"])] }

/-- The node-copy of the divergence network. -/
def NG4 : Graph :=
  { nodes := (G4f 0).nodes, edges := [],
    adjacency_list := [("s", []), ("t", [])] }

/-- The residual graph of `G4` (zero flows): both forward arcs. -/
def RG4a : Graph :=
  { nodes := (G4f 0).nodes,
    edges := [("ab_forward", { id := "ab_forward", start_node_id := "s", end_node_id := "t", capacity := 1, flow := 0 }),
              ("a_forwardb_forward", { id := "a_forwardb_forward", start_node_id := "s", end_node_id := "t", capacity := 5, flow := 0 })],
    adjacency_list := [("s", ["ab_forward", "a_forwardb_forward"]), ("t", [])] }

/-- A single node carrying both the source and the sink flag. -/
def G6 : Graph :=
  { nodes := [("A", { id := "A", name := "A", is_source := true, is_sink := true })],
    edges := [],
    adjacency_list := [("A", [])] }

/-- The spec's single-bottleneck chain scenario: s→A capacity 10, A→t
capacity 5; expected max flow 5. -/
def CH : Graph :=
  { nodes := [("s", { id := "s", name := "Source", is_source := true, is_sink := false }),
              ("A", { id := "A", name := "Node A", is_source := false, is_sink := false }),
              ("t", { id := "t", name := "Sink", is_source := false, is_sink := true })],
    edges := [("e1", { id := "e1", start_node_id := "s", end_node_id := "A", capacity := 10, flow := 0 }),
              ("e2", { id := "e2", start_node_id := "A", end_node_id := "t", capacity := 5, flow := 0 })],
    adjacency_list := [("s", ["e1"]), ("A", ["e2"]), ("t", [])] }

/-- The chain after its max-flow run: both edges carry flow 5. -/
def CHf : Graph :=
  { nodes := CH.nodes,
    edges := [("e1", { id := "e1", start_node_id := "s", end_node_id := "A", capacity := 10, flow := 5 }),
              ("e2", { id := "e2", start_node_id := "A", end_node_id := "t", capacity := 5, flow := 5 })],
    adjacency_list := CH.adjacency_list }

/-- The node-copy of `CH`. -/
def NCH : Graph :=
  { nodes := CH.nodes, edges := [],
    adjacency_list := [("s", []), ("A", []), ("t", [])] }

/-- The residual graph of `CH` with all-zero flows. -/
def RCHa : Graph :=
  { nodes := CH.nodes,
    edges := [("e1_forward", { id := "e1_forward", start_node_id := "s", end_node_id := "A", capacity := 10, flow := 0 }),
              ("e2_forward", { id := "e2_forward", start_node_id := "A", end_node_id := "t", capacity := 5, flow := 0 })],
    adjacency_list := [("s", ["e1_forward"]), ("A", ["e2_forward"]), ("t", [])] }

/-- The final residual graph of the chain run. -/
def RCHb : Graph :=
  { nodes := CH.nodes,
    edges := [("e1_forward", { id := "e1_forward", start_node_id := "s", end_node_id := "A", capacity := 5, flow := 0 }),
              ("e1_backward", { id := "e1_backward", start_node_id := "A", end_node_id := "s", capacity := 5, flow := 0 }),
              ("e2_backward", { id := "e2_backward", start_node_id := "t", end_node_id := "A", capacity := 5, flow := 0 })],
    adjacency_list := [("s", ["e1_forward"]), ("A", ["e1_backward"]), ("t", ["e2_backward"])] }

/-- The insertion sequence that builds `CH` (used by the determinism and
reset claims). -/
def CHops : List NetOp :=
  [.addNode "s" "Source" true false,
   .addNode "A" "Node A" false false,
   .addNode "t" "Sink" false true,
   .addEdge "e1" "s" "A" 10,
   .addEdge "e2" "A" "t" 5]

/- Evaluation equations for the sequencing combinators. -/

@[simp] theorem exThen_ok {α β : Type} (a : α) (f : α → Except PyError β) :
    exThen (.ok a) f = f a := rfl

@[simp] theorem exThen_error {α β : Type} (e : PyError) (f : α → Except PyError β) :
    exThen (.error e) f = .error e := rfl

@[simp] theorem pyThen_ok {α β : Type} (a : α) (f : α → PyRes β) :
    pyThen (.ok a) f = f a := rfl

@[simp] theorem pyThen_error {α β : Type} (e : PyError) (f : α → PyRes β) :
    pyThen (.error e) f = .err e := rfl

@[simp] theorem resThen_ok {α β : Type} (a : α) (f : α → PyRes β) :
    resThen (.ok a) f = f a := rfl

@[simp] theorem resThen_err {α β : Type} (e : PyError) (f : α → PyRes β) :
    resThen (.err e) f = .err e := rfl

@[simp] theorem resThen_div {α β : Type} (f : α → PyRes β) :
    resThen .div f = .div := rfl

@[simp] theorem orRaise_some {α : Type} (a : α) (e : PyError) :
    orRaise (some a) e = .ok a := rfl

@[simp] theorem orRaise_none {α : Type} (e : PyError) :
    orRaise (none : Option α) e = .error e := rfl

/- Projections of the concrete networks, so that evaluation proofs can
rewrite their fields without unfolding the constants themselves. -/

@[simp] theorem G1_nodes : G1.nodes =
  [("s", { id := "s", name := "s", is_source := true, is_sink := false }),
   ("x", { id := "x", name := "x", is_source := false, is_sink := false }),
   ("y", { id := "y", name := "y", is_source := false, is_sink := false }),
   ("t", { id := "t", name := "t", is_source := false, is_sink := true })] := rfl

@[simp] theorem G1_edges : G1.edges =
  [("a_forwardb", { id := "a_forwardb", start_node_id := "s", end_node_id := "x", capacity := 2, flow := 0 }),
   ("xt", { id := "xt", start_node_id := "x", end_node_id := "t", capacity := 2, flow := 0 }),
   ("sy", { id := "sy", start_node_id := "s", end_node_id := "y", capacity := 1, flow := 0 }),
   ("ab", { id := "ab", start_node_id := "y", end_node_id := "t", capacity := 1, flow := 0 })] := rfl

@[simp] theorem G1_adj : G1.adjacency_list =
  [("s", ["a_forwardb", "sy"]), ("x", ["xt"]), ("y", ["ab"]), ("t", [])] := rfl

@[simp] theorem G1b_nodes : G1b.nodes = G1.nodes := rfl

@[simp] theorem G1b_edges : G1b.edges =
  [("a_forwardb", { id := "a_forwardb", start_node_id := "s", end_node_id := "x", capacity := 2, flow := 0 }),
   ("xt", { id := "xt", start_node_id := "x", end_node_id := "t", capacity := 2, flow := 2 }),
   ("sy", { id := "sy", start_node_id := "s", end_node_id := "y", capacity := 1, flow := 0 }),
   ("ab", { id := "ab", start_node_id := "y", end_node_id := "t", capacity := 1, flow := 2 })] := rfl

@[simp] theorem G1b_adj : G1b.adjacency_list = G1.adjacency_list := rfl

@[simp] theorem RG1a_nodes : RG1a.nodes = G1.nodes := rfl

@[simp] theorem RG1a_edges : RG1a.edges =
  [("a_forwardb_forward", { id := "a_forwardb_forward", start_node_id := "s", end_node_id := "x", capacity := 2, flow := 0 }),
   ("xt_forward", { id := "xt_forward", start_node_id := "x", end_node_id := "t", capacity := 2, flow := 0 }),
   ("sy_forward", { id := "sy_forward", start_node_id := "s", end_node_id := "y", capacity := 1, flow := 0 }),
   ("ab_forward", { id := "ab_forward", start_node_id := "y", end_node_id := "t", capacity := 1, flow := 0 })] := rfl

@[simp] theorem RG1a_adj : RG1a.adjacency_list =
  [("s", ["a_forwardb_forward", "sy_forward"]), ("x", ["xt_forward"]), ("y", ["ab_forward"]), ("t", [])] := rfl

@[simp] theorem RG1b_nodes : RG1b.nodes = G1.nodes := rfl

@[simp] theorem RG1b_edges : RG1b.edges =
  [("a_forwardb_forward", { id := "a_forwardb_forward", start_node_id := "s", end_node_id := "x", capacity := 2, flow := 0 }),
   ("xt_backward", { id := "xt_backward", start_node_id := "t", end_node_id := "x", capacity := 2, flow := 0 }),
   ("sy_forward", { id := "sy_forward", start_node_id := "s", end_node_id := "y", capacity := 1, flow := 0 }),
   ("ab_backward", { id := "ab_backward", start_node_id := "t", end_node_id := "y", capacity := 2, flow := 0 })] := rfl

@[simp] theorem RG1b_adj : RG1b.adjacency_list =
  [("s", ["a_forwardb_forward", "sy_forward"]), ("x", []), ("y", []), ("t", ["xt_backward", "ab_backward"])] := rfl

/- Staged evaluation of the full solver run on G1. -/

theorem copyG1 : copy_nodes G1 = .ok NG1 := by
  simp [copy_nodes, copy_nodes_loop, NG1, Graph.get_all_nodes, Graph.add_node,
    mkNode, dictContains, Graph.empty]

set_option maxHeartbeats 1000000 in
theorem resG1 : build_residual_graph G1 = .ok RG1a := by
  iterate 12 (first
    | rfl
    | simp [build_residual_graph, copyG1, residual_arcs_loop, add_residual_arcs,
        NG1, RG1a, Graph.get_all_edges, Graph.add_edge, Graph.get_node, mkEdge,
        dictContains, dictFind, dictModify, Edge.residual_capacity, List.find?, orRaise]
    | norm_num
    | skip)

set_option maxHeartbeats 1000000 in
theorem findG1 : find_augmenting_path RG1a "s" "t" =
    .ok (some (some 2, ["a_forwardb_forward", "xt_forward"])) := by
  iterate 12 (first
    | rfl
    | simp [find_augmenting_path, bfs, bfs_loop, bfs_scan, walk_parent,
        Graph.get_edges_from_node, Graph.get_edge, dictFind, List.find?, orRaise]
    | norm_num
    | skip)

set_option maxHeartbeats 1000000 in
theorem updG1 : update_flows G1 ["a_forwardb_forward", "xt_forward"] 2 = .ok G1b := by
  iterate 12 (first
    | rfl
    | simp [update_flows, pyEndsWith, pyReplace, pyReplaceAux, Graph.get_edge,
        Graph.setEdgeFlow, dictFind, dictModify, List.find?, orRaise, G1b,
        List.isSuffixOf, List.isPrefixOf]
    | norm_num
    | skip)

theorem copyG1b : copy_nodes G1b = .ok NG1 := by
  simp [copy_nodes, copy_nodes_loop, NG1, Graph.get_all_nodes, Graph.add_node,
    mkNode, dictContains, Graph.empty]

set_option maxHeartbeats 1000000 in
theorem resG1b : build_residual_graph G1b = .ok RG1b := by
  iterate 12 (first
    | rfl
    | simp [build_residual_graph, copyG1b, residual_arcs_loop, add_residual_arcs,
        NG1, RG1b, Graph.get_all_edges, Graph.add_edge, Graph.get_node, mkEdge,
        dictContains, dictFind, dictModify, Edge.residual_capacity, List.find?, orRaise]
    | norm_num
    | skip)

set_option maxHeartbeats 1000000 in
theorem findG1b : find_augmenting_path RG1b "s" "t" = .ok none := by
  iterate 12 (first
    | rfl
    | simp [find_augmenting_path, bfs, bfs_loop, bfs_scan, walk_parent,
        Graph.get_edges_from_node, Graph.get_edge, dictFind, List.find?, orRaise]
    | norm_num
    | skip)

set_option maxHeartbeats 1000000 in
theorem calcG1 : calculate_max_flow G1 "s" "t" 20 = .ok (2, G1b, RG1b) := by
  rw [show (20 : Nat) = 18 + 1 + 1 from rfl]
  simp [calculate_max_flow, dictContains, Graph.get_node, dictFind, List.find?,
    orRaise, ff_loop, resG1, findG1, updG1, resG1b, findG1b]

set_option maxHeartbeats 1000000 in
theorem cutG1 : get_min_cut G1b RG1b "s" = (["s", "x", "y"], ["t"]) := by
  simp [get_min_cut, reach_loop, bfs_scan, Graph.get_edges_from_node, dictFind,
    List.find?]

set_option maxHeartbeats 1000000 in
theorem netG1 : network_calculate_max_flow G1 20 = .ok (2, ["s", "x", "y"], ["t"]) := by
  simp [network_calculate_max_flow, get_source_node, get_sink_node,
    Graph.get_source_nodes, Graph.get_sink_nodes, calcG1, cutG1]

set_option maxHeartbeats 1000000 in
theorem validG1 : validate_network G1 = true := by
  simp [validate_network, Graph.get_source_nodes, Graph.get_sink_nodes, dfs_loop,
    Graph.get_edges_from_node, dictFind, List.find?]

/-- C1: the claim that for every network passing validation the value
returned by calculate_max_flow equals the capacity of the derived cut fails
on the code: `G1` passes validation, the run completes with value 2 and cut
(S, T) = ({s, x, y}, {t}), but the original edges crossing from S to T
("xt", capacity 2, and "ab", capacity 1) have total capacity 3.  The cause is
the all-occurrence `str.replace` in `_update_flows`, which redirects the push
on arc "a_forwardb_forward" to edge "ab". -/
theorem C1_maxflow_value_differs_from_cut :
    validate_network G1 = true ∧
    network_calculate_max_flow G1 20 = .ok (2, ["s", "x", "y"], ["t"]) ∧
    cut_capacity G1 ["s", "x", "y"] ["t"] = 3 := by
  refine ⟨validG1, netG1, ?_⟩
  iterate 4 (first
    | rfl
    | simp [cut_capacity, Graph.get_all_edges, List.contains]
    | norm_num
    | skip)

/-- C2: the standing invariant 0 ≤ flow ≤ capacity fails on the code: after
the (completed) run on `G1`, edge "ab" carries flow 2 over capacity 1,
because the augmentation step added the bottleneck of arc
"a_forwardb_forward" (residual capacity 2 of edge "a_forwardb") to the wrong
edge. -/
theorem C2_capacity_invariant_violated :
    calculate_max_flow G1 "s" "t" 20 = .ok (2, G1b, RG1b) ∧
    ∃ e, dictFind G1b.edges "ab" = some e ∧ e.capacity < e.flow := by
  refine ⟨calcG1, ⟨{ id := "ab", start_node_id := "y", end_node_id := "t",
                     capacity := 1, flow := 2 }, ?_, ?_⟩⟩
  · simp [dictFind, List.find?]
  · norm_num

/-- C3: flow conservation after a completed run from all-zero flows fails on
the code: in the final state of the `G1` run, the interior node "x" receives
no flow (edge "a_forwardb" carries 0) but emits flow 2 (edge "xt"), because
the push that should have raised "a_forwardb" went to edge "ab". -/
theorem C3_conservation_violated :
    calculate_max_flow G1 "s" "t" 20 = .ok (2, G1b, RG1b) ∧
    (∃ p, dictFind G1b.nodes "x" = some p ∧ p.is_source = false ∧ p.is_sink = false) ∧
    inflow G1b "x" = 0 ∧ outflow G1b "x" = 2 := by
  refine ⟨calcG1, ⟨{ id := "x", name := "x", is_source := false, is_sink := false },
                   by simp [dictFind, List.find?], rfl, rfl⟩, ?_, ?_⟩
  · iterate 4 (first
      | rfl
      | simp [inflow, Graph.get_all_edges]
      | norm_num
      | skip)
  · iterate 4 (first
      | rfl
      | simp [outflow, Graph.get_all_edges]
      | norm_num
      | skip)

/-- C5: the claim that lookups of missing ids raise NotFound fails on the
code: graph.py imports only InvalidInputError and algorithms.py only
NetworkNotValidError, so the raise sites `raise NodeNotFoundError(...)` /
`raise EdgeNotFoundError(...)` reference unbound names and Python raises
NameError instead (contradicting tests test_get_nonexistent_node,
test_get_nonexistent_edge and test_add_edge_nonexistent_nodes). -/
theorem C5_notfound_raises_nameerror :
    Graph.empty.get_node "X" = .error (.nameError "NodeNotFoundError") ∧
    Graph.empty.get_edge "e1" = .error (.nameError "EdgeNotFoundError") ∧
    calculate_max_flow G6 "Z" "A" 5 = .err (.nameError "NodeNotFoundError") := by
  refine ⟨rfl, rfl, ?_⟩
  simp [calculate_max_flow, dictContains, G6]

/-- C6 counterexample: the claim says `validate_network` returns false for a
network whose single node carries both the source and the sink flag; on the
code it returns true (the reachability scan pops the source, sees it equals
the sink, and breaks), so the claim as stated is false. -/
theorem C6_counterexample : validate_network G6 = true := by
  simp [validate_network, G6, Graph.get_source_nodes, Graph.get_sink_nodes,
    dfs_loop]

/-- C6 amended: a network whose unique source node is also its unique sink
node passes `validate_network` (the node trivially reaches itself); the
identical-source/sink condition is rejected only by `calculate_max_flow`,
which raises NetworkNotValid. -/
theorem C6_both_flags_validates (g : Graph) (n : Node)
    (hs : g.get_source_nodes = [n]) (hk : g.get_sink_nodes = [n])
    (hmem : dictContains g.nodes n.id = true) (fuel : Nat) :
    validate_network g = true ∧
    calculate_max_flow g n.id n.id fuel =
      .err (.networkNotValid "source and sink are the same node") := by
  constructor
  · unfold validate_network
    rw [hs, hk]
    simp [dfs_loop]
  · unfold calculate_max_flow
    simp [hmem]

/-- C6 witness: the amended statement applied to the concrete one-node
network `G6`. -/
theorem C6_both_flags_validates_witness :
    validate_network G6 = true ∧
    calculate_max_flow G6 "A" "A" 5 =
      .err (.networkNotValid "source and sink are the same node") :=
  C6_both_flags_validates G6
    { id := "A", name := "A", is_source := true, is_sink := true }
    (by simp [G6, Graph.get_source_nodes])
    (by simp [G6, Graph.get_sink_nodes])
    (by simp [G6, dictContains]) 5

/- Staged evaluation of the chain scenario (s→A capacity 10, A→t capacity 5,
the spec's single-bottleneck example; expected max flow 5). -/

@[simp] theorem CH_nodes : CH.nodes =
  [("s", { id := "s", name := "Source", is_source := true, is_sink := false }),
   ("A", { id := "A", name := "Node A", is_source := false, is_sink := false }),
   ("t", { id := "t", name := "Sink", is_source := false, is_sink := true })] := rfl

@[simp] theorem CH_edges : CH.edges =
  [("e1", { id := "e1", start_node_id := "s", end_node_id := "A", capacity := 10, flow := 0 }),
   ("e2", { id := "e2", start_node_id := "A", end_node_id := "t", capacity := 5, flow := 0 })] := rfl

@[simp] theorem CH_adj : CH.adjacency_list =
  [("s", ["e1"]), ("A", ["e2"]), ("t", [])] := rfl

@[simp] theorem CHf_nodes : CHf.nodes = CH.nodes := rfl

@[simp] theorem CHf_edges : CHf.edges =
  [("e1", { id := "e1", start_node_id := "s", end_node_id := "A", capacity := 10, flow := 5 }),
   ("e2", { id := "e2", start_node_id := "A", end_node_id := "t", capacity := 5, flow := 5 })] := rfl

@[simp] theorem CHf_adj : CHf.adjacency_list = CH.adjacency_list := rfl

set_option maxHeartbeats 1000000 in
theorem buildCH : buildNetwork CHops = .ok CH := by
  iterate 8 (first
    | rfl
    | simp [buildNetwork, applyOps, CHops, CH, Graph.add_node, Graph.add_edge,
        Graph.get_node, mkNode, mkEdge, dictContains, dictFind, dictModify,
        Graph.empty, List.find?, orRaise]
    | norm_num
    | skip)

theorem copyCH : copy_nodes CH = .ok NCH := by
  simp [copy_nodes, copy_nodes_loop, NCH, CH, Graph.get_all_nodes,
    Graph.add_node, mkNode, dictContains, Graph.empty]

theorem copyCHf : copy_nodes CHf = .ok NCH := by
  simp [copy_nodes, copy_nodes_loop, NCH, CHf, CH, Graph.get_all_nodes,
    Graph.add_node, mkNode, dictContains, Graph.empty]

set_option maxHeartbeats 1000000 in
theorem resCH : build_residual_graph CH = .ok RCHa := by
  iterate 8 (first
    | rfl
    | simp [build_residual_graph, copyCH, residual_arcs_loop, add_residual_arcs,
        NCH, RCHa, CH, Graph.get_all_edges, Graph.add_edge, Graph.get_node,
        mkEdge, dictContains, dictFind, dictModify, Edge.residual_capacity,
        List.find?, orRaise]
    | norm_num
    | skip)

set_option maxHeartbeats 1000000 in
theorem findCH : find_augmenting_path RCHa "s" "t" =
    .ok (some (some 5, ["e1_forward", "e2_forward"])) := by
  iterate 8 (first
    | rfl
    | simp [find_augmenting_path, bfs, bfs_loop, bfs_scan, walk_parent, RCHa, CH,
        Graph.get_edges_from_node, Graph.get_edge, dictFind, List.find?, orRaise]
    | norm_num
    | skip)

set_option maxHeartbeats 1000000 in
theorem updCH : update_flows CH ["e1_forward", "e2_forward"] 5 = .ok CHf := by
  iterate 8 (first
    | rfl
    | simp [update_flows, pyEndsWith, pyReplace, pyReplaceAux, Graph.get_edge,
        Graph.setEdgeFlow, dictFind, dictModify, List.find?, orRaise, CHf, CH,
        List.isSuffixOf, List.isPrefixOf]
    | norm_num
    | skip)

set_option maxHeartbeats 1000000 in
theorem resCHf : build_residual_graph CHf = .ok RCHb := by
  iterate 8 (first
    | rfl
    | simp [build_residual_graph, copyCHf, residual_arcs_loop, add_residual_arcs,
        NCH, RCHb, CHf, CH, Graph.get_all_edges, Graph.add_edge, Graph.get_node,
        mkEdge, dictContains, dictFind, dictModify, Edge.residual_capacity,
        List.find?, orRaise]
    | norm_num
    | skip)

set_option maxHeartbeats 1000000 in
theorem findCHf : find_augmenting_path RCHb "s" "t" = .ok none := by
  iterate 8 (first
    | rfl
    | simp [find_augmenting_path, bfs, bfs_loop, bfs_scan, walk_parent, RCHb, CH,
        Graph.get_edges_from_node, Graph.get_edge, dictFind, List.find?, orRaise]
    | norm_num
    | skip)

set_option maxHeartbeats 1000000 in
theorem calcCH : calculate_max_flow CH "s" "t" 5 = .ok (5, CHf, RCHb) := by
  rw [show (5 : Nat) = 3 + 1 + 1 from rfl]
  simp [calculate_max_flow, dictContains, Graph.get_node, dictFind, List.find?,
    orRaise, ff_loop, resCH, findCH, updCH, resCHf, findCHf]

/-- C9: determinism.  In the embedding, the insertion-order-preserving dicts
make a network a pure value of its construction sequence, so two networks
built by the same insertions are equal and the solver, a pure function of the
graph, returns the same value and the same per-edge flow assignment. -/
theorem C9_determinism (ops : List NetOp) (g1 g2 : Graph) (s t : String)
    (fuel : Nat) (h1 : buildNetwork ops = .ok g1)
    (h2 : buildNetwork ops = .ok g2) :
    calculate_max_flow g1 s t fuel = calculate_max_flow g2 s t fuel ∧
    ∀ v1 g1f rg1 v2 g2f rg2,
      calculate_max_flow g1 s t fuel = .ok (v1, g1f, rg1) →
      calculate_max_flow g2 s t fuel = .ok (v2, g2f, rg2) →
      v1 = v2 ∧ ∀ edge_id,
        (dictFind g1f.edges edge_id).map Edge.flow =
        (dictFind g2f.edges edge_id).map Edge.flow := by
  obtain rfl : g1 = g2 := Except.ok.inj (h1.symm.trans h2)
  refine ⟨rfl, ?_⟩
  intro v1 g1f rg1 v2 g2f rg2 hr1 hr2
  rw [hr1] at hr2
  simp only [PyRes.ok.injEq, Prod.mk.injEq] at hr2
  obtain ⟨rfl, rfl, rfl⟩ := hr2
  exact ⟨rfl, fun _ => rfl⟩

/-- C9 witness: determinism applied to the concrete chain network built by
`CHops`. -/
theorem C9_determinism_witness :
    buildNetwork CHops = .ok CH ∧
    calculate_max_flow CH "s" "t" 5 = calculate_max_flow CH "s" "t" 5 :=
  ⟨buildCH, (C9_determinism CHops CH CH "s" "t" 5 buildCH buildCH).1⟩

/- Staged evaluation of the divergence network G4 = G4f 0 (edge "ab": s→t
capacity 1 next to edge "a_forwardb": s→t capacity 5).  After the first
augmentation saturates "ab", every later iteration finds the path over
"a_forwardb_forward" (capacity 5) and adds its bottleneck to edge "ab"
again, so "a_forwardb" keeps residual capacity 5 forever. -/

@[simp] theorem G4f_nodes (f : ℚ) : (G4f f).nodes =
  [("s", { id := "s", name := "s", is_source := true, is_sink := false }),
   ("t", { id := "t", name := "t", is_source := false, is_sink := true })] := rfl

@[simp] theorem G4f_edges (f : ℚ) : (G4f f).edges =
  [("ab", { id := "ab", start_node_id := "s", end_node_id := "t", capacity := 1, flow := f }),
   ("a_forwardb", { id := "a_forwardb", start_node_id := "s", end_node_id := "t", capacity := 5, flow := 0 })] := rfl

@[simp] theorem G4f_adj (f : ℚ) : (G4f f).adjacency_list =
  [("s", ["ab", "a_forwardb"]), ("t", [])] := rfl

@[simp] theorem RG4_nodes (f : ℚ) : (RG4 f).nodes = (G4f f).nodes := rfl

@[simp] theorem RG4_edges (f : ℚ) : (RG4 f).edges =
  [("ab_backward", { id := "ab_backward", start_node_id := "t", end_node_id := "s", capacity := f, flow := 0 }),
   ("a_forwardb_forward", { id := "a_forwardb_forward", start_node_id := "s", end_node_id := "t", capacity := 5, flow := 0 })] := rfl

@[simp] theorem RG4_adj (f : ℚ) : (RG4 f).adjacency_list =
  [("s", ["a_forwardb_forward"]), ("t", ["ab_backward"])] := rfl

theorem copyG4 (f : ℚ) : copy_nodes (G4f f) = .ok NG4 := by
  simp [copy_nodes, copy_nodes_loop, NG4, Graph.get_all_nodes, Graph.add_node,
    mkNode, dictContains, Graph.empty]

set_option maxHeartbeats 1000000 in
theorem resG4 (f : ℚ) (hf : 1 ≤ f) : build_residual_graph (G4f f) = .ok (RG4 f) := by
  have h1 : ¬ ((1 : ℚ) - f > 0) := by linarith
  have h2 : (0 : ℚ) < f := by linarith
  have h3 : ¬ (f < 0) := by linarith
  iterate 8 (first
    | rfl
    | simp [build_residual_graph, copyG4, residual_arcs_loop, add_residual_arcs,
        NG4, RG4, Graph.get_all_edges, Graph.add_edge, Graph.get_node, mkEdge,
        dictContains, dictFind, dictModify, Edge.residual_capacity, List.find?,
        orRaise, h1, h2, h3]
    | norm_num
    | skip)

set_option maxHeartbeats 1000000 in
theorem findG4 (f : ℚ) : find_augmenting_path (RG4 f) "s" "t" =
    .ok (some (some 5, ["a_forwardb_forward"])) := by
  iterate 8 (first
    | rfl
    | simp [find_augmenting_path, bfs, bfs_loop, bfs_scan, walk_parent,
        Graph.get_edges_from_node, Graph.get_edge, dictFind, List.find?, orRaise]
    | norm_num
    | skip)

set_option maxHeartbeats 1000000 in
theorem updG4 (f : ℚ) : update_flows (G4f f) ["a_forwardb_forward"] 5 =
    .ok (G4f (f + 5)) := by
  iterate 8 (first
    | rfl
    | simp [update_flows, pyEndsWith, pyReplace, pyReplaceAux, Graph.get_edge,
        Graph.setEdgeFlow, dictFind, dictModify, List.find?, orRaise, G4f,
        List.isSuffixOf, List.isPrefixOf]
    | norm_num
    | skip)

/-- Once edge "ab" carries flow at least 1, the loop never terminates: every
iteration re-finds the path over "a_forwardb_forward" and moves the state
from flow f to flow f + 5. -/
theorem divG4 (fuel : Nat) :
    ∀ f : ℚ, 1 ≤ f → ∀ tot : ℚ, ff_loop "s" "t" fuel (G4f f) tot = .div := by
  induction fuel with
  | zero => intro f hf tot; rfl
  | succ n ih =>
    intro f hf tot
    rw [show (n + 1 : Nat) = n + 1 from rfl]
    simp only [ff_loop]
    rw [resG4 f hf]
    simp only [pyThen_ok]
    rw [findG4 f]
    simp only [resThen_ok, Option.getD]
    rw [updG4 f]
    simp only [pyThen_ok]
    exact ih (f + 5) (by linarith) (tot + 5)

@[simp] theorem RG4a_nodes : RG4a.nodes = (G4f 0).nodes := rfl

@[simp] theorem RG4a_edges : RG4a.edges =
  [("ab_forward", { id := "ab_forward", start_node_id := "s", end_node_id := "t", capacity := 1, flow := 0 }),
   ("a_forwardb_forward", { id := "a_forwardb_forward", start_node_id := "s", end_node_id := "t", capacity := 5, flow := 0 })] := rfl

@[simp] theorem RG4a_adj : RG4a.adjacency_list =
  [("s", ["ab_forward", "a_forwardb_forward"]), ("t", [])] := rfl

set_option maxHeartbeats 1000000 in
theorem resG4a : build_residual_graph (G4f 0) = .ok RG4a := by
  iterate 8 (first
    | rfl
    | simp [build_residual_graph, copyG4, residual_arcs_loop, add_residual_arcs,
        NG4, RG4a, Graph.get_all_edges, Graph.add_edge, Graph.get_node, mkEdge,
        dictContains, dictFind, dictModify, Edge.residual_capacity, List.find?,
        orRaise]
    | norm_num
    | skip)

set_option maxHeartbeats 1000000 in
theorem findG4a : find_augmenting_path RG4a "s" "t" =
    .ok (some (some 1, ["ab_forward"])) := by
  iterate 8 (first
    | rfl
    | simp [find_augmenting_path, bfs, bfs_loop, bfs_scan, walk_parent,
        Graph.get_edges_from_node, Graph.get_edge, dictFind, List.find?, orRaise]
    | norm_num
    | skip)

set_option maxHeartbeats 1000000 in
theorem updG4a : update_flows (G4f 0) ["ab_forward"] 1 = .ok (G4f 1) := by
  iterate 8 (first
    | rfl
    | simp [update_flows, pyEndsWith, pyReplace, pyReplaceAux, Graph.get_edge,
        Graph.setEdgeFlow, dictFind, dictModify, List.find?, orRaise, G4f,
        List.isSuffixOf, List.isPrefixOf]
    | norm_num
    | skip)

/- String and dict facts used by the residual-graph characterization. -/

theorem str_data_append (a b : String) : (a ++ b).data = a.data ++ b.data := by
  cases a; cases b; rfl

theorem str_append_right_cancel {a b s : String} (h : a ++ s = b ++ s) : a = b := by
  have hd : a.data ++ s.data = b.data ++ s.data := by
    rw [← str_data_append, ← str_data_append, h]
  rcases List.append_inj' hd rfl with ⟨h1, -⟩
  cases a; cases b
  exact congrArg String.mk h1

theorem str_append_fw_ne_bw (a b : String) : a ++ "_forward" ≠ b ++ "_backward" := by
  intro hEq
  have hd : a.data ++ "_forward".data = b.data ++ "_backward".data := by
    rw [← str_data_append, ← str_data_append, hEq]
  have hr : "_forward".data.reverse ++ a.data.reverse =
      "_backward".data.reverse ++ b.data.reverse := by
    have h2 := congrArg List.reverse hd
    rw [List.reverse_append, List.reverse_append] at h2
    exact h2
  have h4 : ("_forward".data.reverse ++ a.data.reverse)[4]? =
      ("_backward".data.reverse ++ b.data.reverse)[4]? := by rw [hr]
  rw [List.getElem?_append_left (by decide), List.getElem?_append_left (by decide)] at h4
  exact absurd h4 (by decide)

theorem str_append_suffix_ne_empty (a s : String) (hs : s.data ≠ []) :
    a ++ s ≠ "" := by
  intro h
  have hd : a.data ++ s.data = [] := by
    have := congrArg String.data h
    rwa [str_data_append] at this
  exact hs (List.append_eq_nil.1 hd).2

theorem dictContains_eq_false {α : Type} (d : Dict α) (k : String)
    (h : ∀ p ∈ d, p.1 ≠ k) : dictContains d k = false := by
  unfold dictContains
  rw [List.any_eq_false]
  intro p hp
  simpa using h p hp

theorem dictFind_of_contains {α : Type} (d : Dict α) (k : String)
    (h : dictContains d k = true) : ∃ a, dictFind d k = some a := by
  unfold dictContains at h
  rw [List.any_eq_true] at h
  obtain ⟨p, hp, hk⟩ := h
  unfold dictFind
  rcases hf : d.find? (fun q => q.1 = k) with _ | q
  · rw [List.find?_eq_none] at hf
    exact absurd hk (hf p hp)
  · refine ⟨q.2, ?_⟩
    rw [hf]
    rfl

/-- Successful `add_edge`: all guards pass and the edge is appended. -/
theorem add_edge_ok (g : Graph) (id a b : String) (c : ℚ)
    (h1 : dictContains g.edges id = false)
    (h2 : ∃ n, dictFind g.nodes a = some n)
    (h3 : ∃ n, dictFind g.nodes b = some n)
    (h4 : a ≠ b) (h5 : id ≠ "") (h6 : 0 ≤ c) :
    g.add_edge id a b c = .ok
      ({ id := id, start_node_id := a, end_node_id := b, capacity := c, flow := 0 },
       { g with
         edges := g.edges ++ [(id, { id := id, start_node_id := a, end_node_id := b, capacity := c, flow := 0 })],
         adjacency_list := dictModify g.adjacency_list a (fun l => l ++ [id]) }) := by
  obtain ⟨n1, hn1⟩ := h2
  obtain ⟨n2, hn2⟩ := h3
  have hc : ¬ (c < 0) := not_lt.2 h6
  unfold Graph.add_edge Graph.get_node mkEdge
  rw [hn1, hn2, h1]
  simp [h4, h5, hc]

/-- Successful `add_node`: all guards pass and the node is appended. -/
theorem add_node_ok (g : Graph) (n : Node)
    (h1 : dictContains g.nodes n.id = false)
    (h2 : n.id ≠ "") (h3 : n.name ≠ "") :
    g.add_node n.id n.name n.is_source n.is_sink = .ok
      (n, { g with
            nodes := g.nodes ++ [(n.id, n)],
            adjacency_list := g.adjacency_list ++ [(n.id, [])] }) := by
  unfold Graph.add_node mkNode
  rw [h1]
  simp only [Bool.false_eq_true, if_false, ite_false, h3, if_neg h2, if_neg h3]
  have : (Node.mk n.id n.name n.is_source n.is_sink) = n := rfl
  rw [this]
  rfl

/-- The node-copy loop appends every node under its own id. -/
theorem copy_nodes_loop_spec (ns : List Node) :
    ∀ acc : Graph,
      (acc.nodes.map (·.1) ++ ns.map Node.id).Nodup →
      (∀ n ∈ ns, n.id ≠ "" ∧ n.name ≠ "") →
      copy_nodes_loop ns acc = .ok
        { nodes := acc.nodes ++ ns.map (fun n => (n.id, n)),
          edges := acc.edges,
          adjacency_list := acc.adjacency_list ++ ns.map (fun n => (n.id, [])) } := by
  induction ns with
  | nil =>
    intro acc _ _
    simp [copy_nodes_loop]
  | cons n rest ih =>
    intro acc hnodup hok
    have hmemfree : dictContains acc.nodes n.id = false := by
      apply dictContains_eq_false
      intro p hp hpk
      have h1 : n.id ∈ acc.nodes.map (·.1) := by
        rw [← hpk]; exact List.mem_map_of_mem _ hp
      have h2 : n.id ∈ (n :: rest).map Node.id := by simp
      rw [List.nodup_append] at hnodup
      exact hnodup.2.2 h1 h2
    obtain ⟨hid, hname⟩ := hok n (by simp)
    simp only [copy_nodes_loop]
    rw [add_node_ok acc n hmemfree hid hname]
    simp only [exThen_ok]
    rw [ih _ (by simpa [List.append_assoc] using hnodup)
        (fun m hm => hok m (by simp [hm]))]
    simp [List.append_assoc]

/-- `copy_nodes` of a well-formed graph reproduces the node dict exactly,
with an empty edge dict and empty adjacency entries. -/
theorem copy_nodes_spec (g : Graph) (h : g.wf) :
    copy_nodes g = .ok
      { nodes := g.nodes, edges := [],
        adjacency_list := g.nodes.map (fun p => (p.1, [])) } := by
  obtain ⟨hnodup, -, hnodes, -⟩ := h
  have hids : (g.get_all_nodes.map Node.id) = g.nodes.map (·.1) := by
    unfold Graph.get_all_nodes
    rw [List.map_map]
    exact List.map_congr_left (fun p hp => (hnodes p hp).1)
  unfold copy_nodes
  rw [copy_nodes_loop_spec g.get_all_nodes Graph.empty
    (by simpa [Graph.empty, hids] using hnodup)
    (by intro n hn
        unfold Graph.get_all_nodes at hn
        obtain ⟨p, hp, rfl⟩ := List.mem_map.1 hn
        obtain ⟨h1, h2, h3⟩ := hnodes p hp
        exact ⟨h1.symm ▸ h2, h3⟩)]
  have hpair : g.get_all_nodes.map (fun n => (n.id, n)) = g.nodes := by
    unfold Graph.get_all_nodes
    rw [List.map_map]
    have : ∀ p ∈ g.nodes, ((fun n => (n.id, n)) ∘ (fun q => q.2)) p = p := by
      intro p hp
      have := (hnodes p hp).1
      simp only [Function.comp_apply, this]
    rw [List.map_congr_left this]
    exact List.map_id' g.nodes
  have hadjp : g.get_all_nodes.map (fun n => (n.id, ([] : List String))) =
      g.nodes.map (fun p => (p.1, [])) := by
    unfold Graph.get_all_nodes
    rw [List.map_map]
    exact List.map_congr_left (fun p hp => by
      simp only [Function.comp_apply, (hnodes p hp).1])
  rw [show Graph.empty.nodes = [] from rfl, show Graph.empty.edges = [] from rfl,
    show Graph.empty.adjacency_list = [] from rfl]
  simp only [List.nil_append, hpair, hadjp]

theorem mk_graph_nodes (N : Dict Node) (E : Dict Edge) (A : Dict (List String)) :
    (Graph.mk N E A).nodes = N := rfl

theorem mk_graph_edges (N : Dict Node) (E : Dict Edge) (A : Dict (List String)) :
    (Graph.mk N E A).edges = E := rfl

/-- `specResidualArcs` distributes over cons. -/
theorem specResidualArcs_cons (e : Edge) (es : List Edge) :
    specResidualArcs (e :: es) = specResidualArcs [e] ++ specResidualArcs es := by
  simp [specResidualArcs]

/-- Every key of a single edge's spec arcs is its forward or backward id. -/
theorem specResidualArcs_single_key (e : Edge) (p : String × Edge)
    (hp : p ∈ specResidualArcs [e]) :
    p.1 = e.id ++ "_forward" ∨ p.1 = e.id ++ "_backward" := by
  simp only [specResidualArcs, List.flatMap_cons, List.flatMap_nil,
    List.append_nil] at hp
  rcases List.mem_append.1 hp with h | h
  · by_cases hc : e.residual_capacity > 0
    · rw [if_pos hc] at h
      rcases List.mem_singleton.1 h with rfl
      exact Or.inl rfl
    · rw [if_neg hc] at h
      exact absurd h (List.not_mem_nil p)
  · by_cases hc : e.flow > 0
    · rw [if_pos hc] at h
      rcases List.mem_singleton.1 h with rfl
      exact Or.inr rfl
    · rw [if_neg hc] at h
      exact absurd h (List.not_mem_nil p)

/-- The backward-arc half of `add_residual_arcs`, stated over any graph `g1`
that extends the accumulator `acc` by already-added arcs `L`. -/
theorem backward_arc_step (acc g1 : Graph) (e : Edge) (L : Dict Edge)
    (hnodes : g1.nodes = acc.nodes)
    (hedges : g1.edges = acc.edges ++ L)
    (hs : dictContains acc.nodes e.start_node_id = true)
    (ht : dictContains acc.nodes e.end_node_id = true)
    (hne : e.start_node_id ≠ e.end_node_id)
    (hfresh : ∀ p ∈ acc.edges ++ L, p.1 ≠ e.id ++ "_backward") :
    ∃ rg,
      (if e.flow > 0 then
        exThen (g1.add_edge (e.id ++ "_backward") e.end_node_id
          e.start_node_id e.flow) (fun pr => .ok pr.2)
       else .ok g1) = .ok rg ∧
      rg.nodes = acc.nodes ∧
      rg.edges = acc.edges ++ (L ++
        (if e.flow > 0 then
          [(e.id ++ "_backward",
            { id := e.id ++ "_backward", start_node_id := e.end_node_id,
              end_node_id := e.start_node_id, capacity := e.flow, flow := 0 })]
         else [])) := by
  by_cases hfl : e.flow > 0
  · have hcont : dictContains g1.edges (e.id ++ "_backward") = false := by
      apply dictContains_eq_false
      rw [hedges]
      exact hfresh
    obtain ⟨n2, hn2⟩ := dictFind_of_contains _ _ ht
    obtain ⟨n1, hn1⟩ := dictFind_of_contains _ _ hs
    have hn2' : dictFind g1.nodes e.end_node_id = some n2 := by
      rw [hnodes]; exact hn2
    have hn1' : dictFind g1.nodes e.start_node_id = some n1 := by
      rw [hnodes]; exact hn1
    simp only [if_pos hfl]
    rw [add_edge_ok g1 _ _ _ _ hcont ⟨n2, hn2'⟩ ⟨n1, hn1'⟩ (Ne.symm hne)
      (str_append_suffix_ne_empty _ _ (by decide)) (le_of_lt hfl)]
    simp only [exThen_ok]
    refine ⟨_, rfl, hnodes, ?_⟩
    rw [mk_graph_edges, hedges, List.append_assoc]
  · simp only [if_neg hfl]
    exact ⟨g1, rfl, hnodes, by rw [hedges, List.append_nil]⟩

/-- One full step of the residual-arc loop: with fresh arc ids and endpoints
present, `add_residual_arcs` succeeds, preserves the nodes, and appends
exactly the spec's arcs for the edge. -/
theorem add_residual_arcs_ok (acc : Graph) (e : Edge)
    (hs : dictContains acc.nodes e.start_node_id = true)
    (ht : dictContains acc.nodes e.end_node_id = true)
    (hne : e.start_node_id ≠ e.end_node_id)
    (hf : ∀ p ∈ acc.edges, p.1 ≠ e.id ++ "_forward" ∧ p.1 ≠ e.id ++ "_backward") :
    ∃ rg, add_residual_arcs acc e = .ok rg ∧ rg.nodes = acc.nodes ∧
      rg.edges = acc.edges ++ specResidualArcs [e] := by
  have hspec : specResidualArcs [e] =
      (if e.residual_capacity > 0 then
        [(e.id ++ "_forward",
          { id := e.id ++ "_forward", start_node_id := e.start_node_id,
            end_node_id := e.end_node_id, capacity := e.residual_capacity,
            flow := 0 })]
       else []) ++
      (if e.flow > 0 then
        [(e.id ++ "_backward",
          { id := e.id ++ "_backward", start_node_id := e.end_node_id,
            end_node_id := e.start_node_id, capacity := e.flow, flow := 0 })]
       else []) := by
    simp [specResidualArcs]
  rw [hspec]
  unfold add_residual_arcs
  by_cases hrc : e.residual_capacity > 0
  · obtain ⟨n1, hn1⟩ := dictFind_of_contains _ _ hs
    obtain ⟨n2, hn2⟩ := dictFind_of_contains _ _ ht
    have hcontf : dictContains acc.edges (e.id ++ "_forward") = false :=
      dictContains_eq_false _ _ (fun p hp => (hf p hp).1)
    simp only [if_pos hrc]
    rw [add_edge_ok acc _ _ _ _ hcontf ⟨n1, hn1⟩ ⟨n2, hn2⟩ hne
      (str_append_suffix_ne_empty _ _ (by decide)) (le_of_lt hrc)]
    simp only [exThen_ok]
    refine backward_arc_step acc _ e _ rfl rfl hs ht hne ?_
    intro p hp
    rcases List.mem_append.1 hp with h | h
    · exact (hf p h).2
    · rcases List.mem_singleton.1 h with rfl
      exact str_append_fw_ne_bw e.id e.id
  · simp only [if_neg hrc]
    simp only [exThen_ok]
    refine backward_arc_step acc acc e [] rfl (List.append_nil _).symm
      hs ht hne ?_
    intro p hp
    rw [List.append_nil] at hp
    exact (hf p hp).2

/-- The per-edge residual loop: with distinct edge ids, endpoints present in
the accumulator's nodes, and no accumulated key clashing with the arcs to
come, the loop succeeds, preserves the nodes, and appends exactly the spec's
arcs in edge order. -/
theorem residual_arcs_loop_spec (es : List Edge) :
    ∀ acc : Graph,
      (∀ e ∈ es, dictContains acc.nodes e.start_node_id = true ∧
        dictContains acc.nodes e.end_node_id = true ∧
        e.start_node_id ≠ e.end_node_id) →
      ((es.map Edge.id).Nodup) →
      (∀ e ∈ es, ∀ p ∈ acc.edges,
        p.1 ≠ e.id ++ "_forward" ∧ p.1 ≠ e.id ++ "_backward") →
      ∃ rg, residual_arcs_loop es acc = .ok rg ∧ rg.nodes = acc.nodes ∧
        rg.edges = acc.edges ++ specResidualArcs es := by
  induction es with
  | nil =>
    intro acc _ _ _
    exact ⟨acc, rfl, rfl, by simp [specResidualArcs]⟩
  | cons e rest ih =>
    intro acc hend hnodup hfresh
    obtain ⟨he1, he2, he3⟩ := hend e (by simp)
    obtain ⟨rg1, hrun1, hn1, hE1⟩ := add_residual_arcs_ok acc e he1 he2 he3
      (fun p hp => hfresh e (by simp) p hp)
    have hcons : (e.id :: rest.map Edge.id).Nodup := by simpa using hnodup
    have hnotin := (List.nodup_cons.1 hcons).1
    have htail := (List.nodup_cons.1 hcons).2
    have hid : ∀ f ∈ rest, e.id ≠ f.id := by
      intro f hf h
      apply hnotin
      rw [h]
      exact List.mem_map_of_mem Edge.id hf
    have hend' : ∀ f ∈ rest, dictContains rg1.nodes f.start_node_id = true ∧
        dictContains rg1.nodes f.end_node_id = true ∧
        f.start_node_id ≠ f.end_node_id := by
      intro f hf
      rw [hn1]
      exact hend f (List.mem_cons_of_mem _ hf)
    have hfresh' : ∀ f ∈ rest, ∀ p ∈ rg1.edges,
        p.1 ≠ f.id ++ "_forward" ∧ p.1 ≠ f.id ++ "_backward" := by
      intro f hf p hp
      rw [hE1] at hp
      rcases List.mem_append.1 hp with h | h
      · exact hfresh f (List.mem_cons_of_mem _ hf) p h
      · rcases specResidualArcs_single_key e p h with hk | hk
        · constructor
          · rw [hk]
            exact fun hEq => hid f hf (str_append_right_cancel hEq)
          · rw [hk]
            exact str_append_fw_ne_bw e.id f.id
        · constructor
          · rw [hk]
            exact fun hEq => str_append_fw_ne_bw f.id e.id hEq.symm
          · rw [hk]
            exact fun hEq => hid f hf (str_append_right_cancel hEq)
    obtain ⟨rg2, hrun2, hn2, hE2⟩ := ih rg1 hend' htail hfresh'
    refine ⟨rg2, ?_, by rw [hn2, hn1], ?_⟩
    · simp only [residual_arcs_loop]
      rw [hrun1]
      simp only [exThen_ok]
      exact hrun2
    · rw [hE2, hE1]
      conv_rhs => rw [specResidualArcs_cons]
      rw [List.append_assoc]

/-- C7: on every well-formed graph, `_build_residual_graph` succeeds, copies
the node dict verbatim, and its edge dict is exactly the arcs the spec
describes — for each original edge in order, one forward arc `<id>_forward`
from start to end carrying the residual capacity when that is positive, then
one backward arc `<id>_backward` from end to start carrying the flow when
that is positive, and nothing else.  The builder is embedded as a pure
function of the input graph, which the Python code never mutates, so the
input is unchanged by construction. -/
theorem C7_residual_characterization (g : Graph) (h : g.wf) :
    ∃ rg, build_residual_graph g = .ok rg ∧ rg.nodes = g.nodes ∧
      rg.edges = specResidualArcs g.get_all_edges := by
  obtain ⟨hN, hE, hnodes, hedges⟩ := h
  have hcopy := copy_nodes_spec g ⟨hN, hE, hnodes, hedges⟩
  have hend : ∀ e ∈ g.get_all_edges,
      dictContains g.nodes e.start_node_id = true ∧
      dictContains g.nodes e.end_node_id = true ∧
      e.start_node_id ≠ e.end_node_id := by
    intro e he
    unfold Graph.get_all_edges at he
    obtain ⟨p, hp, rfl⟩ := List.mem_map.1 he
    obtain ⟨-, h1, h2, h3⟩ := hedges p hp
    exact ⟨h1, h2, h3⟩
  have hids : g.get_all_edges.map Edge.id = g.edges.map (·.1) := by
    unfold Graph.get_all_edges
    rw [List.map_map]
    exact List.map_congr_left (fun p hp => (hedges p hp).1)
  have hnodup2 : (g.get_all_edges.map Edge.id).Nodup := by
    rw [hids]; exact hE
  obtain ⟨rg, hrun, hn, hEq⟩ := residual_arcs_loop_spec g.get_all_edges
    { nodes := g.nodes, edges := [],
      adjacency_list := g.nodes.map (fun p => (p.1, [])) }
    hend hnodup2
    (fun e _ p hp => absurd hp (List.not_mem_nil p))
  unfold build_residual_graph
  rw [hcopy]
  simp only [exThen_ok]
  exact ⟨rg, hrun, hn, by simpa using hEq⟩

/-- Concrete check of C7 on the spec's chain network. -/
theorem C7_residual_characterization_witness :
    ∃ rg, build_residual_graph CH = .ok rg ∧ rg.nodes = CH.nodes ∧
      rg.edges = specResidualArcs CH.get_all_edges :=
  C7_residual_characterization CH (by unfold Graph.wf; decide)

/- The solver mutates only edge flows.  The following lemmas track that the
node dict, the adjacency dict and the edge shape are preserved through
`_update_flows` and the augmentation loop. -/

theorem setEdgeFlow_nodes (g : Graph) (k : String) (q : ℚ) :
    (g.setEdgeFlow k q).nodes = g.nodes := rfl

theorem setEdgeFlow_adj (g : Graph) (k : String) (q : ℚ) :
    (g.setEdgeFlow k q).adjacency_list = g.adjacency_list := rfl

theorem setEdgeFlow_shape (g : Graph) (k : String) (q : ℚ) :
    edges_shape (g.setEdgeFlow k q) = edges_shape g := by
  unfold edges_shape Graph.setEdgeFlow dictModify
  rw [List.map_map]
  apply List.map_congr_left
  intro p _
  by_cases h : p.1 = k <;> simp [h]

theorem update_flows_shape (path : List String) :
    ∀ (g : Graph) (flow : ℚ) (g' : Graph), update_flows g path flow = .ok g' →
      g'.nodes = g.nodes ∧ g'.adjacency_list = g.adjacency_list ∧
      edges_shape g' = edges_shape g := by
  induction path with
  | nil =>
    intro g flow g' h
    simp only [update_flows] at h
    obtain rfl := Except.ok.inj h
    exact ⟨rfl, rfl, rfl⟩
  | cons edge_id rest ih =>
    intro g flow g' h
    simp only [update_flows] at h
    split at h
    · rcases hge : g.get_edge (pyReplace edge_id "_forward" "") with e | edge
      · rw [hge] at h; simp only [exThen_error] at h; exact absurd h (by simp)
      · rw [hge] at h; simp only [exThen_ok] at h
        obtain ⟨h1, h2, h3⟩ := ih _ _ _ h
        exact ⟨h1.trans (setEdgeFlow_nodes ..), h2.trans (setEdgeFlow_adj ..),
          h3.trans (setEdgeFlow_shape ..)⟩
    · split at h
      · rcases hge : g.get_edge (pyReplace edge_id "_backward" "") with e | edge
        · rw [hge] at h; simp only [exThen_error] at h; exact absurd h (by simp)
        · rw [hge] at h; simp only [exThen_ok] at h
          obtain ⟨h1, h2, h3⟩ := ih _ _ _ h
          exact ⟨h1.trans (setEdgeFlow_nodes ..), h2.trans (setEdgeFlow_adj ..),
            h3.trans (setEdgeFlow_shape ..)⟩
      · exact ih _ _ _ h

/-- C4: the claim that the augmentation loop terminates for every finite
network with rational capacities and a valid, distinct, correctly flagged
source/sink pair fails on the code: on `G4` (integer capacities, valid
source s and sink t) the loop runs forever, because every push on arc
"a_forwardb_forward" is misdirected by the all-occurrence `str.replace` onto
edge "ab", so the chosen arc never loses residual capacity.  For every fuel
bound, the embedded loop is still running. -/
theorem C4_loop_diverges : ∀ fuel : Nat, calculate_max_flow G4 "s" "t" fuel = .div := by
  intro fuel
  cases fuel with
  | zero => rfl
  | succ n =>
    show calculate_max_flow (G4f 0) "s" "t" (n + 1) = .div
    unfold calculate_max_flow
    simp only [dictContains, Graph.get_node, dictFind, List.find?, orRaise,
      G4f_nodes, List.any_cons, List.any_nil]
    norm_num
    simp only [ff_loop]
    rw [resG4a]
    simp only [pyThen_ok]
    rw [findG4a]
    simp only [resThen_ok, Option.getD]
    rw [updG4a]
    simp only [pyThen_ok]
    exact divG4 n 1 (by norm_num) (0 + 1)

theorem ff_loop_shape (source_id sink_id : String) (fuel : Nat) :
    ∀ (g : Graph) (tot v : ℚ) (g' rg : Graph),
      ff_loop source_id sink_id fuel g tot = .ok (v, g', rg) →
      g'.nodes = g.nodes ∧ g'.adjacency_list = g.adjacency_list ∧
      edges_shape g' = edges_shape g := by
  induction fuel with
  | zero => intro g tot v g' rg h; exact absurd h (by simp [ff_loop])
  | succ n ih =>
    intro g tot v g' rg h
    simp only [ff_loop] at h
    rcases hb : build_residual_graph g with e | rg0
    · rw [hb] at h; simp only [pyThen_error] at h; exact absurd h (by simp)
    · rw [hb] at h; simp only [pyThen_ok] at h
      rcases hf : find_augmenting_path rg0 source_id sink_id with r | e
      · rw [hf] at h; simp only [resThen_ok] at h
        rcases r with _ | pr
        · simp only [PyRes.ok.injEq, Prod.mk.injEq] at h
          obtain ⟨-, rfl, -⟩ := h
          exact ⟨rfl, rfl, rfl⟩
        · simp only at h
          rcases hu : update_flows g pr.2 (pr.1.getD 0) with e | g2
          · rw [hu] at h; simp only [pyThen_error] at h; exact absurd h (by simp)
          · rw [hu] at h; simp only [pyThen_ok] at h
            obtain ⟨h1, h2, h3⟩ := ih _ _ _ _ _ h
            obtain ⟨u1, u2, u3⟩ := update_flows_shape _ _ _ _ hu
            exact ⟨h1.trans u1, h2.trans u2, h3.trans u3⟩
      · rw [hf] at h; simp only [resThen_err] at h; exact absurd h (by simp)
      · rw [hf] at h; simp only [resThen_div] at h; exact absurd h (by simp)

/-- When the augmentation loop returns, the residual graph it hands back is
the one built from the final graph, and the search on it found no path (this
is exactly the loop's exit condition). -/
theorem ff_loop_last (source_id sink_id : String) (fuel : Nat) :
    ∀ (g : Graph) (tot v : ℚ) (g' rg : Graph),
      ff_loop source_id sink_id fuel g tot = .ok (v, g', rg) →
      build_residual_graph g' = .ok rg ∧
      find_augmenting_path rg source_id sink_id = .ok none := by
  induction fuel with
  | zero => intro g tot v g' rg h; exact absurd h (by simp [ff_loop])
  | succ n ih =>
    intro g tot v g' rg h
    simp only [ff_loop] at h
    rcases hb : build_residual_graph g with e | rg0
    · rw [hb] at h; simp only [pyThen_error] at h; exact absurd h (by simp)
    · rw [hb] at h; simp only [pyThen_ok] at h
      rcases hf : find_augmenting_path rg0 source_id sink_id with r | e
      · rw [hf] at h; simp only [resThen_ok] at h
        rcases r with _ | pr
        · simp only [PyRes.ok.injEq, Prod.mk.injEq] at h
          obtain ⟨-, rfl, rfl⟩ := h
          exact ⟨hb, hf⟩
        · simp only at h
          rcases hu : update_flows g pr.2 (pr.1.getD 0) with e | g2
          · rw [hu] at h; simp only [pyThen_error] at h; exact absurd h (by simp)
          · rw [hu] at h; simp only [pyThen_ok] at h
            exact ih _ _ _ _ _ h
      · rw [hf] at h; simp only [resThen_err] at h; exact absurd h (by simp)
      · rw [hf] at h; simp only [resThen_div] at h; exact absurd h (by simp)

/-- Inversion of a successful `calculate_max_flow`: every validation check
passed and the loop produced the result. -/
theorem calculate_ok_inversion (g : Graph) (source_id sink_id : String)
    (fuel : Nat) (v : ℚ) (g' rg : Graph)
    (h : calculate_max_flow g source_id sink_id fuel = .ok (v, g', rg)) :
    dictContains g.nodes source_id = true ∧
    dictContains g.nodes sink_id = true ∧
    source_id ≠ sink_id ∧
    (∃ sn, g.get_node source_id = .ok sn ∧ sn.is_source = true) ∧
    (∃ tn, g.get_node sink_id = .ok tn ∧ tn.is_sink = true) ∧
    ff_loop source_id sink_id fuel g 0 = .ok (v, g', rg) := by
  unfold calculate_max_flow at h
  split at h
  · exact absurd h (by simp)
  · split at h
    · exact absurd h (by simp)
    · split at h
      · exact absurd h (by simp)
      · rcases hgs : g.get_node source_id with e | sn
        · rw [hgs] at h; simp only [pyThen_error] at h; exact absurd h (by simp)
        · rw [hgs] at h; simp only [pyThen_ok] at h
          split at h
          · exact absurd h (by simp)
          · rcases hgt : g.get_node sink_id with e | tn
            · rw [hgt] at h; simp only [pyThen_error] at h; exact absurd h (by simp)
            · rw [hgt] at h; simp only [pyThen_ok] at h
              split at h
              · exact absurd h (by simp)
              · rename_i hns hnt hne hsrc hsink
                refine ⟨by simpa using hns, by simpa using hnt, by simpa using hne,
                  ⟨sn, rfl, by simpa using hsrc⟩, ⟨tn, rfl, by simpa using hsink⟩, h⟩

/-- C10: edge flows persist between solver invocations: once a run has
completed with value v, running the solver again on the same graph without a
reset finds no augmenting path in the very first iteration (the final
residual graph is rebuilt unchanged) and returns 0, with the graph and the
residual graph untouched. -/
theorem C10_second_run_returns_zero (g : Graph) (source_id sink_id : String)
    (fuel m : Nat) (v : ℚ) (g' rg : Graph)
    (h : calculate_max_flow g source_id sink_id fuel = .ok (v, g', rg)) :
    calculate_max_flow g' source_id sink_id (m + 1) = .ok (0, g', rg) := by
  obtain ⟨hcs, hct, hne, ⟨sn, hsn, hsrc⟩, ⟨tn, htn, hsink⟩, hloop⟩ :=
    calculate_ok_inversion g source_id sink_id fuel v g' rg h
  obtain ⟨hnodes, -, -⟩ := ff_loop_shape source_id sink_id fuel g 0 v g' rg hloop
  obtain ⟨hres, hfind⟩ := ff_loop_last source_id sink_id fuel g 0 v g' rg hloop
  have hgn_s : g'.get_node source_id = .ok sn := by
    unfold Graph.get_node at hsn ⊢; rw [hnodes]; exact hsn
  have hgn_t : g'.get_node sink_id = .ok tn := by
    unfold Graph.get_node at htn ⊢; rw [hnodes]; exact htn
  unfold calculate_max_flow
  rw [hnodes, hgn_s, hgn_t]
  have hne' : (source_id = sink_id) = False := by simp [hne]
  simp [hcs, hct, hsrc, hsink, hne']
  simp only [ff_loop]
  rw [hres]
  simp only [pyThen_ok]
  rw [hfind]
  simp only [resThen_ok]

/-- C10 witness: after the chain run completes with value 5, a second
invocation without reset returns 0. -/
theorem C10_second_run_returns_zero_witness :
    calculate_max_flow CHf "s" "t" 1 = .ok (0, CHf, RCHb) :=
  C10_second_run_returns_zero CH "s" "t" 5 0 5 CHf RCHb calcCH

/-- `reset_flows` only looks at the flow-independent part of a graph. -/
theorem reset_flows_congr (g1 g2 : Graph) (hn : g1.nodes = g2.nodes)
    (ha : g1.adjacency_list = g2.adjacency_list)
    (hs : edges_shape g1 = edges_shape g2) : reset_flows g1 = reset_flows g2 := by
  unfold reset_flows
  rw [hn, ha]
  have key : ∀ gg : Graph,
      gg.edges.map (fun p => (p.1, { p.2 with flow := 0 })) =
      (edges_shape gg).map (fun q =>
        (q.1, { id := q.2.1, start_node_id := q.2.2.1, end_node_id := q.2.2.2.1,
                capacity := q.2.2.2.2, flow := 0 })) := by
    intro gg
    unfold edges_shape
    rw [List.map_map]
    rfl
  rw [key g1, key g2, hs]

/-- Resetting a graph whose flows are already all zero is the identity. -/
theorem reset_flows_of_zero (g : Graph) (h : ∀ p ∈ g.edges, p.2.flow = 0) :
    reset_flows g = g := by
  unfold reset_flows
  have key : ∀ l : List (String × Edge), (∀ p ∈ l, p.2.flow = 0) →
      l.map (fun p => (p.1, { p.2 with flow := 0 })) = l := by
    intro l
    induction l with
    | nil => intro _; rfl
    | cons p rest ih =>
      intro hl
      have h0 : p.2.flow = 0 := hl p (by simp)
      have hrest := ih (fun q hq => hl q (by simp [hq]))
      simp only [List.map_cons, hrest, List.cons.injEq, and_true]
      rcases p with ⟨k, e⟩
      rcases e with ⟨i, a, b, c, f⟩
      simp only at h0
      simp [h0]
  rw [key g.edges h]

/-- C8: reset zeroes every flow, leaves every capacity unchanged, and
recomputing the max flow after a reset reproduces the first computation
exactly (the reset of the post-run graph is the original all-zero graph, and
the solver is a function of the graph). -/
theorem C8_reset_then_recompute (g : Graph) (source_id sink_id : String)
    (fuel : Nat) :
    (∀ p ∈ (reset_flows g).edges, p.2.flow = 0) ∧
    ((reset_flows g).edges.map (fun p => (p.1, p.2.capacity)) =
      g.edges.map (fun p => (p.1, p.2.capacity))) ∧
    (∀ (v : ℚ) (g' rg : Graph), (∀ p ∈ g.edges, p.2.flow = 0) →
      calculate_max_flow g source_id sink_id fuel = .ok (v, g', rg) →
      calculate_max_flow (reset_flows g') source_id sink_id fuel = .ok (v, g', rg)) := by
  refine ⟨?_, ?_, ?_⟩
  · intro p hp
    unfold reset_flows at hp
    simp only [List.mem_map] at hp
    obtain ⟨q, -, rfl⟩ := hp
    rfl
  · unfold reset_flows
    rw [List.map_map]
    rfl
  · intro v g' rg hz hrun
    obtain ⟨-, -, -, -, -, hloop⟩ :=
      calculate_ok_inversion g source_id sink_id fuel v g' rg hrun
    obtain ⟨hn, ha, hs⟩ := ff_loop_shape source_id sink_id fuel g 0 v g' rg hloop
    rw [reset_flows_congr g' g hn ha hs, reset_flows_of_zero g hz]
    exact hrun

/-- C8 witness: the chain run from zero flows yields 5, and after the reset
of the resulting graph the recomputation yields 5 again with the same final
state. -/
theorem C8_reset_then_recompute_witness :
    calculate_max_flow (reset_flows CHf) "s" "t" 5 = .ok (5, CHf, RCHb) :=
  (C8_reset_then_recompute CH "s" "t" 5).2.2 5 CHf RCHb
    (by intro p hp
        simp only [CH_edges, List.mem_cons, List.not_mem_nil, or_false] at hp
        rcases hp with rfl | rfl <;> rfl)
    calcCH

end FlowProj
